import Mathlib

/-!
# Verification of the tree-sitter AST-parser service

A shallow embedding of `src/python/ast_parser.py`: the concrete-syntax-tree
node model, the per-dialect extractors (Python imports / functions / classes,
JS-TS functions / classes incl. the JSDoc comment index), and the per-file /
batch orchestration (`parse_file`, batch mode of `main`).

Conventions of the embedding:
* A tree node carries its node-kind tag, the source text it spans
  (`get_text(node)` in the source is `Node.text` here), its 0-indexed start
  and end rows (`start_point[0]` / `end_point[0]`), the tree-sitter field tag
  it is attached to in its parent (for `child_by_field_name`), and its
  ordered child list.  `prev_sibling` chains are recovered during traversal
  from the parent's child list.
* Python string operations used by the source (`startswith`, `strip`,
  `lstrip`, substring membership `in`, `str.lower`) are re-implemented over
  `List Char` so that all definitions reduce definitionally.
* Python truthiness on optional strings (`if name:`, `params or "()"`,
  `if return_type:`) is modelled explicitly: `none` and `some ""` are falsy.
* Rows are `Int` (Python ints), so `line - 1` / `line - 2` lookups in the
  comment index behave exactly as in the source even near row 0.
-/

/-! ## Python-style string helpers -/

/-- The apostrophe character (`'`), used by docstring quote stripping. -/
def squote : Char := Char.ofNat 39

/-- The backtick character, part of the quote set stripped from JS module strings. -/
def bquote : Char := Char.ofNat 96

/-- `isPfxOf p s` is Python `s.startswith(p)` at the character-list level. -/
def isPfxOf : List Char → List Char → Bool
  | [], _ => true
  | _ :: _, [] => false
  | p :: ps, s :: ss => if p = s then isPfxOf ps ss else false

/-- Python `s.startswith(pat)`. -/
def strStartsWith (s pat : String) : Bool := isPfxOf pat.data s.data

/-- Python `s.endswith(pat)`. -/
def strEndsWith (s pat : String) : Bool := isPfxOf pat.data.reverse s.data.reverse

/-- `isSubOf pat s` is Python `pat in s` (substring containment). -/
def isSubOf : List Char → List Char → Bool
  | pat, [] => pat.isEmpty
  | pat, s :: ss => isPfxOf pat (s :: ss) || isSubOf pat ss

/-- Python `pat in s` on strings. -/
def containsSub (pat s : String) : Bool := isSubOf pat.data s.data

/-- Python `s[n:]`. -/
def strDrop (s : String) (n : Nat) : String := String.mk (s.data.drop n)

/-- Python `s[:-n]` (for `n > 0`; total: removes up to `n` trailing chars). -/
def strDropRight (s : String) (n : Nat) : String := String.mk (s.data.take (s.data.length - n))

/-- The whitespace set of Python `str.strip()` with no arguments. -/
def pySpace (c : Char) : Bool :=
  c.toNat = 32 ∨ c.toNat = 9 ∨ c.toNat = 10 ∨ c.toNat = 13 ∨ c.toNat = 11 ∨ c.toNat = 12

/-- Python `s.strip()`. -/
def strTrim (s : String) : String :=
  String.mk (((s.data.dropWhile pySpace).reverse.dropWhile pySpace).reverse)

/-- Python `s.strip(chars)`: remove characters of `set` from both ends. -/
def stripCharSet (s : String) (set : List Char) : String :=
  String.mk (((s.data.dropWhile (set.contains ·)).reverse.dropWhile (set.contains ·)).reverse)

/-- Python `s.lstrip(chars)`: remove characters of `set` from the left end. -/
def lstripCharSet (s : String) (set : List Char) : String :=
  String.mk (s.data.dropWhile (set.contains ·))

/-- ASCII lower-casing of one character (Python `str.lower` restricted to the
ASCII extensions the dialect registry deals with). -/
def lowerChar (c : Char) : Char :=
  if 65 ≤ c.toNat ∧ c.toNat ≤ 90 then Char.ofNat (c.toNat + 32) else c

/-- Python `s.lower()`. -/
def strLower (s : String) : String := String.mk (s.data.map lowerChar)

/-- Python `opt or default` on an optional string (`None` and `""` are falsy). -/
def pyOrStr : Option String → String → String
  | some s, d => if s = "" then d else s
  | none, d => d

/-- Python `f"{x}"` of an optional string: `None` renders as `"None"`. -/
def pyStrOfOpt : Option String → String
  | some s => s
  | none => "None"

/-- Python truthiness of an optional string (`if name:`). -/
def pyTruthy : Option String → Bool
  | some s => s ≠ ""
  | none => false

/-- Python `s.rfind(c)` over a character list: last index of `c`, else `-1`. -/
def rfindChar (l : List Char) (c : Char) : Int :=
  (l.foldl (fun (st : Int × Int) ch => (if ch = c then st.2 else st.1, st.2 + 1)) (-1, 0)).1

/-! ## The concrete-syntax-tree node model -/

/-- A tree-sitter node: kind tag, spanned source text, start row, end row
(both 0-indexed, `start_point[0]` / `end_point[0]`), the field tag under
which the node hangs in its parent (for `child_by_field_name`), children. -/
inductive Node : Type where
  | mk : String → String → Int → Int → Option String → List Node → Node

/-- `node.type` — the node-kind tag. -/
def Node.type : Node → String
  | .mk t _ _ _ _ _ => t

/-- `get_text(node)` — the source text the node spans. -/
def Node.text : Node → String
  | .mk _ t _ _ _ _ => t

/-- `node.start_point[0]` — 0-indexed start row. -/
def Node.startRow : Node → Int
  | .mk _ _ s _ _ _ => s

/-- `node.end_point[0]` — 0-indexed end row. -/
def Node.endRow : Node → Int
  | .mk _ _ _ e _ _ => e

/-- The tree-sitter field tag this node carries in its parent. -/
def Node.fieldTag : Node → Option String
  | .mk _ _ _ _ f _ => f

/-- `node.children`. -/
def Node.children : Node → List Node
  | .mk _ _ _ _ _ cs => cs

/-- `node.child_by_field_name(f)`: first child carrying field tag `f`. -/
def childByFieldName (n : Node) (f : String) : Option Node :=
  n.children.find? (fun c => decide (c.fieldTag = some f))

mutual

/-- All nodes of a subtree, the root included (used to state which comments a
tree contains). -/
def nodeDescendants : Node → List Node
  | .mk t tx s e f cs => .mk t tx s e f cs :: nodeListDescendants cs

/-- All nodes of a forest. -/
def nodeListDescendants : List Node → List Node
  | [] => []
  | c :: cs => nodeDescendants c ++ nodeListDescendants cs

end

/-! ## Python import extraction (`extract_python_imports`) -/

/-- One record of the Python dialect's `imports` list.  `alias_name` is the
source dict's `alias` key (a Lean keyword). -/
structure PyImportRecord where
  module : String
  names : Option (List String)
  alias_name : Option String
  is_from : Bool
  line : Int
deriving DecidableEq

/-- The inner loop of the `aliased_import` arm of `walk_imports` for a plain
`import X as Y`: later `dotted_name` children overwrite the module, an
`identifier` seen after a module sets (or overwrites) the alias. -/
def aliasedImportScan (cs : List Node) : Option Node × Option Node :=
  cs.foldl
    (fun st ac =>
      if ac.type = "dotted_name" then (some ac, st.2)
      else if ac.type = "identifier" ∧ st.1.isSome then (st.1, some ac)
      else st)
    (none, none)

/-- The `import_statement` arm of `walk_imports`: one record per dotted module
name or aliased pairing. -/
def importStatementRecords (line : Int) (cs : List Node) : List PyImportRecord :=
  cs.flatMap (fun child =>
    if child.type = "dotted_name" then
      [⟨child.text, none, none, false, line⟩]
    else if child.type = "aliased_import" then
      match aliasedImportScan child.children with
      | (some m, a) => [⟨m.text, none, a.map Node.text, false, line⟩]
      | (none, _) => []
    else [])

/-- Loop state of the `import_from_statement` arm of `walk_imports`. -/
structure FromImportState where
  module_name : Option String
  names : List String
  found_import_keyword : Bool
deriving DecidableEq

/-- One child step of the `import_from_statement` arm, an exact rendering of
its `elif` chain (source lines 118–133). -/
def fromImportStep (st : FromImportState) (child : Node) : FromImportState :=
  if child.type = "import" then { st with found_import_keyword := true }
  else if child.type = "dotted_name" ∧ ¬st.found_import_keyword then
    { st with module_name := some child.text }
  else if child.type = "relative_import" then { st with module_name := some child.text }
  else if (child.type = "dotted_name" ∨ child.type = "identifier") ∧ st.found_import_keyword then
    { st with names := st.names ++ [child.text] }
  else if child.type = "aliased_import" then
    match child.children.find? (fun ac => decide (ac.type = "dotted_name" ∨ ac.type = "identifier")) with
    | some ac => { st with names := st.names ++ [ac.text] }
    | none => st
  else if child.type = "wildcard_import" then { st with names := st.names ++ ["*"] }
  else st

mutual

/-- `walk_imports` of `extract_python_imports`. -/
def pyWalkImports : Node → List PyImportRecord
  | .mk ty _tx sr _er _fl cs =>
    if ty = "import_statement" then importStatementRecords (sr + 1) cs
    else if ty = "import_from_statement" then
      let st := cs.foldl fromImportStep ⟨none, [], false⟩
      match st.module_name with
      | some m => [⟨m, (if st.names = [] then none else some st.names), none, true, sr + 1⟩]
      | none => []
    else pyWalkImportsList cs

/-- The recursion of `walk_imports` over a child list. -/
def pyWalkImportsList : List Node → List PyImportRecord
  | [] => []
  | c :: rest => pyWalkImports c ++ pyWalkImportsList rest

end

/-- `extract_python_imports(source_code, tree)`; a node carries its spanned
source text, so the `source_code` argument is implicit in the tree. -/
def extract_python_imports (tree : Node) : List PyImportRecord :=
  pyWalkImports tree

/-! ## Python function extraction (`extract_python_functions`) -/

/-- One record of the Python dialect's `functions` list. -/
structure PyFunctionRecord where
  name : String
  signature : String
  parameters : String
  return_type : Option String
  docstring : Option String
  decorators : List String
  start_line : Int
  end_line : Int
  is_async : Bool
deriving DecidableEq

/-- The quote-delimiter candidates of `extract_docstring`, in the priority
order of the source: `"""`, `'''`, `"`, `'`. -/
def tripleDq : String := "\"\"\""

/-- Three apostrophes. -/
def tripleSq : String := String.mk [squote, squote, squote]

/-- A single double-quote. -/
def singleDq : String := "\""

/-- A single apostrophe. -/
def singleSq : String := String.mk [squote]

/-- The quote-stripping loop of `extract_docstring` (lines 168–172): for the
first matching delimiter pair, drop it from both ends and stop. -/
def stripQuotes (s : String) : String :=
  if strStartsWith s tripleDq && strEndsWith s tripleDq then strDropRight (strDrop s 3) 3
  else if strStartsWith s tripleSq && strEndsWith s tripleSq then strDropRight (strDrop s 3) 3
  else if strStartsWith s singleDq && strEndsWith s singleDq then strDropRight (strDrop s 1) 1
  else if strStartsWith s singleSq && strEndsWith s singleSq then strDropRight (strDrop s 1) 1
  else s

/-- `extract_docstring(block_node)`: the docstring of a `block` whose first
statement is a bare string literal, quote-stripped and trimmed. -/
def pyExtractDocstring (block : Node) : Option String :=
  match block.children with
  | [] => none
  | first_child :: _ =>
    match first_child.children with
    | string_node :: _ =>
      if first_child.type = "expression_statement" ∧ string_node.type = "string" then
        some (strTrim (stripQuotes string_node.text))
      else none
    | [] => none

/-- The child scan shared by `find_functions` and `extract_method`:
`identifier` → name, `parameters` → parameter text, `type` → return type,
`block` → docstring; later children of the same kind overwrite. -/
structure PyFnScan where
  func_name : Option String
  params : Option String
  return_type : Option String
  docstring : Option String
deriving DecidableEq

/-- One step of the Python function child scan (`elif` chain, lines 199–207). -/
def pyFnScanStep (st : PyFnScan) (child : Node) : PyFnScan :=
  if child.type = "identifier" then { st with func_name := some child.text }
  else if child.type = "parameters" then { st with params := some child.text }
  else if child.type = "type" then { st with return_type := some child.text }
  else if child.type = "block" then { st with docstring := pyExtractDocstring child }
  else st

/-- The backward `prev_sibling` walk of lines 192–197: visit the contiguous
run of `decorator` siblings immediately above the function, nearest first,
inserting each discovered text at the FRONT of the accumulator. -/
def pyDecoratorWalk : List Node → List String → List String
  | [], acc => acc
  | p :: ps, acc => if p.type = "decorator" then pyDecoratorWalk ps (p.text :: acc) else acc

/-- Decorator gathering for a function whose previous siblings, nearest
first, are `prevRev`. -/
def pyCollectDecorators (prevRev : List Node) : List String :=
  pyDecoratorWalk prevRev []

/-- `def <name><params>` plus the ` -> <type>` suffix when the return type is
truthy — the Python-dialect signature builder (lines 211–213 and 288–290). -/
def pySignature (func_name : String) (params : Option String) (return_type : Option String) : String :=
  let sig0 := "def " ++ func_name ++ pyOrStr params "()"
  match return_type with
  | some rt => if rt = "" then sig0 else sig0 ++ " -> " ++ rt
  | none => sig0

mutual

/-- `find_functions(node, is_top_level)`; `prevRev` lists the node's previous
siblings nearest-first (its `prev_sibling` chain).  Every call site of the
source passes `is_top_level=True`; the flag is kept for fidelity. -/
def pyFindFunctions (prevRev : List Node) (node : Node) (is_top_level : Bool) : List PyFunctionRecord :=
  match node with
  | .mk ty _tx sr er _fl cs =>
    if ty = "function_definition" then
      let decorators := pyCollectDecorators prevRev
      let st := cs.foldl pyFnScanStep ⟨none, none, none, none⟩
      match st.func_name with
      | some func_name =>
        if func_name ≠ "" ∧ ¬strStartsWith func_name "_" then
          [⟨func_name, pySignature func_name st.params st.return_type,
            pyOrStr st.params "()", st.return_type, st.docstring, decorators,
            sr + 1, er + 1, cs.any (fun c => decide (c.type = "async"))⟩]
        else []
      | none => []
    else if is_top_level then pyFindFunctionsChildren cs []
    else []

/-- The `for child in node.children` loop of `find_functions`: descend into
every child except `class_definition` nodes, threading the previous-sibling
context. -/
def pyFindFunctionsChildren : List Node → List Node → List PyFunctionRecord
  | [], _ => []
  | c :: rest, prevRev =>
    (if c.type ≠ "class_definition" then pyFindFunctions prevRev c true else []) ++
      pyFindFunctionsChildren rest (c :: prevRev)

end

/-- `extract_python_functions(source_code, tree, language)`. -/
def extract_python_functions (tree : Node) : List PyFunctionRecord :=
  pyFindFunctions [] tree true

/-! ## Python class extraction (`extract_python_classes`) -/

/-- One method record of a Python class (`extract_method`); the source emits
the record even when no `identifier` child was found, in which case `name`
is `None` and the signature renders it as `"None"`. -/
structure PyMethodRecord where
  name : Option String
  signature : String
  parameters : String
  return_type : Option String
  docstring : Option String
  is_async : Bool
  is_static : Bool
  is_private : Bool
  start_line : Int
  end_line : Int
deriving DecidableEq

/-- One record of the Python dialect's `classes` list. -/
structure PyClassRecord where
  name : String
  superclass : Option String
  decorators : List String
  methods : List PyMethodRecord
  start_line : Int
  end_line : Int
deriving DecidableEq

/-- `extract_method(node, decorators)` of `extract_python_classes`: no
private-name exclusion, the leading-underscore marker only sets
`is_private`; `is_static` is a literal substring match of
`"@staticmethod"`/`"@classmethod"` against the decorator texts. -/
def pyExtractMethod (node : Node) (decorators : List String) : PyMethodRecord :=
  match node with
  | .mk _ty _tx sr er _fl cs =>
    let st := cs.foldl pyFnScanStep ⟨none, none, none, none⟩
    let is_async := cs.any (fun c => decide (c.type = "async"))
    let is_static := decorators.any
      (fun d => containsSub "@staticmethod" d || containsSub "@classmethod" d)
    let is_private := match st.func_name with
      | some n => strStartsWith n "_"
      | none => false
    ⟨st.func_name, pySignature (pyStrOfOpt st.func_name) st.params st.return_type,
      pyOrStr st.params "()", st.return_type, st.docstring,
      is_async, is_static, is_private, sr + 1, er + 1⟩

/-- The last child of kind `ty` (Python loop variables are overwritten, so
the last assignment wins). -/
def lastOfType (cs : List Node) (ty : String) : Option Node :=
  cs.foldl (fun acc c => if c.type = ty then some c else acc) none

/-- The `block` arm of `extract_class`: every `function_definition` immediate
child of the class body becomes a method, and a `decorated_definition` child
contributes its wrapped function together with its decorator texts. -/
def pyBlockMethods (body_children : List Node) : List PyMethodRecord :=
  body_children.flatMap (fun body_child =>
    if body_child.type = "function_definition" then [pyExtractMethod body_child []]
    else if body_child.type = "decorated_definition" then
      let method_decorators :=
        (body_child.children.filter (fun dc => decide (dc.type = "decorator"))).map Node.text
      match lastOfType body_child.children "function_definition" with
      | some func_node => [pyExtractMethod func_node method_decorators]
      | none => []
    else [])

/-- Child-scan state of `extract_class`. -/
structure PyClassScan where
  class_name : Option String
  superclass : Option String
  methods : List PyMethodRecord
deriving DecidableEq

/-- One child step of `extract_class` (lines 311–333): name from an
`identifier`, the first identifier-like argument of an `argument_list` as
superclass, and the methods of each `block` child. -/
def pyClassScanStep (st : PyClassScan) (child : Node) : PyClassScan :=
  if child.type = "identifier" then { st with class_name := some child.text }
  else if child.type = "argument_list" then
    match child.children.find? (fun arg => decide (arg.type = "identifier" ∨ arg.type = "attribute")) with
    | some arg => { st with superclass := some arg.text }
    | none => st
  else if child.type = "block" then { st with methods := st.methods ++ pyBlockMethods child.children }
  else st

/-- `extract_class(node, class_decorators)`: emits one class record when the
scanned class name is truthy. -/
def pyExtractClass (node : Node) (class_decorators : List String) : List PyClassRecord :=
  match node with
  | .mk _ty _tx sr er _fl cs =>
    let st := cs.foldl pyClassScanStep ⟨none, none, []⟩
    match st.class_name with
    | some class_name =>
      if class_name ≠ "" then
        [⟨class_name, st.superclass, class_decorators, st.methods, sr + 1, er + 1⟩]
      else []
    | none => []

/-- `find_classes(node)` of `extract_python_classes`: walks ONLY the
root-level children (no recursion), looking for `class_definition` nodes,
possibly wrapped in a `decorated_definition`. -/
def pyFindClasses (root : Node) : List PyClassRecord :=
  root.children.flatMap (fun child =>
    if child.type = "class_definition" then pyExtractClass child []
    else if child.type = "decorated_definition" then
      let decorators := (child.children.filter (fun dc => decide (dc.type = "decorator"))).map Node.text
      match lastOfType child.children "class_definition" with
      | some class_node => pyExtractClass class_node decorators
      | none => []
    else [])

/-- `extract_python_classes(source_code, tree)`. -/
def extract_python_classes (tree : Node) : List PyClassRecord :=
  pyFindClasses tree

/-! ## JavaScript / TypeScript function extraction (`extract_js_functions`) -/

/-- One record of the curly-brace dialects' `functions` list. -/
structure JsFunctionRecord where
  name : String
  signature : String
  parameters : String
  return_type : Option String
  docstring : Option String
  decorators : List String
  start_line : Int
  end_line : Int
  is_async : Bool
  is_generator : Bool
deriving DecidableEq

/-- The empty comment index. -/
def emptyComments : Int → Option String := fun _ => none

mutual

/-- `collect_comments(node)`: a depth-first pre-pass storing, for every
comment whose trimmed text starts with `/**`, that text keyed by the
comment's 0-indexed END row; a later insertion at the same key overwrites. -/
def jsCollectComments (m : Int → Option String) (node : Node) : Int → Option String :=
  match node with
  | .mk ty tx _sr er _fl cs =>
    let m2 := if ty = "comment" ∧ strStartsWith (strTrim tx) "/**" then
        (fun x => if x = er then some (strTrim tx) else m x)
      else m
    jsCollectCommentsList m2 cs

/-- The child recursion of `collect_comments`. -/
def jsCollectCommentsList (m : Int → Option String) : List Node → (Int → Option String)
  | [] => m
  | c :: cs => jsCollectCommentsList (jsCollectComments m c) cs

end

/-- `find_jsdoc(func_node)` (lines 443–450): look the comment index up at
`func_line - 1`, then at `func_line - 2`, nearest first; nothing farther is
ever consulted. -/
def jsFindJsdoc (comments : Int → Option String) (func_line : Int) : Option String :=
  match comments (func_line - 1) with
  | some t => some t
  | none => comments (func_line - 2)

/-- Child-scan state of `extract_function_info`. -/
structure JsFnScan where
  func_name : Option String
  params : Option String
  return_type : Option String
  is_async : Bool
  is_generator : Bool
deriving DecidableEq

/-- One child step of `extract_function_info` (lines 460–470). -/
def jsFnScanStep (st : JsFnScan) (child : Node) : JsFnScan :=
  if child.type = "identifier" ∨ child.type = "property_identifier" then
    { st with func_name := some child.text }
  else if child.type = "formal_parameters" then { st with params := some child.text }
  else if child.type = "type_annotation" then
    { st with return_type := some (lstripCharSet child.text [':', ' ']) }
  else if child.type = "async" then { st with is_async := true }
  else if child.type = "*" then { st with is_generator := true }
  else st

/-- `extract_function_info(node, name_hint)`: returns `none` for a falsy or
private-marked name; the signature uses the `function`/`function*` keyword
form (arrow declarators are re-rendered by the caller). -/
def jsExtractFunctionInfo (comments : Int → Option String) (node : Node)
    (name_hint : Option String) : Option JsFunctionRecord :=
  match node with
  | .mk _ty _tx sr er _fl cs =>
    let st := cs.foldl jsFnScanStep ⟨name_hint, none, none, false, false⟩
    match st.func_name with
    | none => none
    | some func_name =>
      if func_name = "" then none
      else if strStartsWith func_name "_" then none
      else
        let pre := (if st.is_async then "async " else "") ++
          (if st.is_generator then "function* " else "function ")
        let sig0 := pre ++ func_name ++ pyOrStr st.params "()"
        let signature := match st.return_type with
          | some rt => if rt = "" then sig0 else sig0 ++ ": " ++ rt
          | none => sig0
        some ⟨func_name, signature, pyOrStr st.params "()", st.return_type,
          jsFindJsdoc comments sr, [], sr + 1, er + 1, st.is_async, st.is_generator⟩

/-- The truthy return-type suffix `": T"` used by the arrow-signature
re-rendering (line 532). -/
def jsArrowRetSuffix : Option String → String
  | some rt => if rt = "" then "" else ": " ++ rt
  | none => ""

mutual

/-- `find_functions(node, is_top_level)` of `extract_js_functions`.  Three
shapes are handled, each returning without descending further: a
`function_declaration`, a variable/lexical declaration whose declarator value
is an arrow function or function expression (re-rendered `const <name> =
<async-prefix><params> =><ret>`), and an `export_statement` unwrapped by
recursing into its children.  Otherwise recursion skips class bodies. -/
def jsFindFunctions (comments : Int → Option String) (node : Node) (is_top_level : Bool) :
    List JsFunctionRecord :=
  match node with
  | .mk ty _tx _sr _er _fl cs =>
    if ty = "function_declaration" then
      match jsExtractFunctionInfo comments (.mk ty _tx _sr _er _fl cs) none with
      | some info => [info]
      | none => []
    else if ty = "lexical_declaration" ∨ ty = "variable_declaration" then
      cs.flatMap (fun child =>
        if child.type = "variable_declarator" then
          match childByFieldName child "name", childByFieldName child "value" with
          | some name_node, some value_node =>
            let name := name_node.text
            if value_node.type = "arrow_function" ∨ value_node.type = "function_expression" then
              match jsExtractFunctionInfo comments value_node (some name) with
              | some info =>
                if value_node.type = "arrow_function" then
                  [{ info with signature :=
                      "const " ++ name ++ " = " ++ (if info.is_async then "async " else "") ++
                        info.parameters ++ " =>" ++ jsArrowRetSuffix info.return_type }]
                else [info]
              | none => []
            else []
          | _, _ => []
        else [])
    else if ty = "export_statement" then jsFindFunctionsList comments cs
    else if is_top_level then jsFindFunctionsSkipClasses comments cs
    else []

/-- The export-unwrapping loop: recurse into every child at top level. -/
def jsFindFunctionsList (comments : Int → Option String) : List Node → List JsFunctionRecord
  | [] => []
  | c :: rest => jsFindFunctions comments c true ++ jsFindFunctionsList comments rest

/-- The default recursion: descend into every child that is not a class. -/
def jsFindFunctionsSkipClasses (comments : Int → Option String) : List Node → List JsFunctionRecord
  | [] => []
  | c :: rest =>
    (if c.type ≠ "class_declaration" ∧ c.type ≠ "class" then jsFindFunctions comments c true
     else []) ++ jsFindFunctionsSkipClasses comments rest

end

/-- `extract_js_functions(source_code, tree, language)`. -/
def extract_js_functions (tree : Node) : List JsFunctionRecord :=
  jsFindFunctions (jsCollectComments emptyComments tree) tree true

/-! ## JavaScript / TypeScript class extraction (`extract_js_classes`) -/

/-- One method record of a JS/TS class. -/
structure JsMethodRecord where
  name : String
  signature : String
  parameters : String
  return_type : Option String
  docstring : Option String
  is_async : Bool
  is_static : Bool
  is_private : Bool
  start_line : Int
  end_line : Int
deriving DecidableEq

/-- One record of the curly-brace dialects' `classes` list. -/
structure JsClassRecord where
  name : String
  superclass : Option String
  decorators : List String
  methods : List JsMethodRecord
  start_line : Int
  end_line : Int
deriving DecidableEq

/-- Child-scan state of the JS `extract_method`. -/
structure JsMethodScan where
  func_name : Option String
  params : Option String
  return_type : Option String
  is_async : Bool
  is_static : Bool
deriving DecidableEq

/-- One child step of the JS `extract_method` (lines 591–601). -/
def jsMethodScanStep (st : JsMethodScan) (child : Node) : JsMethodScan :=
  if child.type = "identifier" ∨ child.type = "property_identifier" then
    { st with func_name := some child.text }
  else if child.type = "formal_parameters" then { st with params := some child.text }
  else if child.type = "type_annotation" then
    { st with return_type := some (lstripCharSet child.text [':', ' ']) }
  else if child.type = "async" then { st with is_async := true }
  else if child.type = "static" then { st with is_static := true }
  else st

/-- `extract_method(node)` of `extract_js_classes`: drops only a falsy name;
a leading `_` or `#` marker sets `is_private` and never excludes. -/
def jsExtractMethod (comments : Int → Option String) (node : Node) : Option JsMethodRecord :=
  match node with
  | .mk _ty _tx sr er _fl cs =>
    let st := cs.foldl jsMethodScanStep ⟨none, none, none, false, false⟩
    match st.func_name with
    | none => none
    | some func_name =>
      if func_name = "" then none
      else
        let is_private := strStartsWith func_name "_" || strStartsWith func_name "#"
        let sig0 := (if st.is_async then "async " else "") ++ func_name ++ pyOrStr st.params "()"
        let signature := match st.return_type with
          | some rt => if rt = "" then sig0 else sig0 ++ ": " ++ rt
          | none => sig0
        some ⟨func_name, signature, pyOrStr st.params "()", st.return_type,
          jsFindJsdoc comments sr, st.is_async, st.is_static, is_private, sr + 1, er + 1⟩

/-- The `class_heritage` loop of the JS `extract_class` (lines 636–645): the
first identifier-like child wins and stops the scan; an `extends_clause`
contributes its first identifier-like child but the scan continues. -/
def jsHeritageScan : List Node → Option String → Option String
  | [], acc => acc
  | hc :: rest, acc =>
    if hc.type = "identifier" ∨ hc.type = "type_identifier" ∨ hc.type = "member_expression" then
      some hc.text
    else if hc.type = "extends_clause" then
      match hc.children.find? (fun ec =>
          decide (ec.type = "identifier" ∨ ec.type = "type_identifier" ∨ ec.type = "member_expression")) with
      | some ec => jsHeritageScan rest (some ec.text)
      | none => jsHeritageScan rest acc
    else jsHeritageScan rest acc

/-- Child-scan state of the JS `extract_class`. -/
structure JsClassScan where
  class_name : Option String
  superclass : Option String
  methods : List JsMethodRecord
deriving DecidableEq

/-- One child step of the JS `extract_class` (lines 632–651): the FIRST
identifier-like child names the class; `method_definition` children of the
`class_body` become methods (a falsy-named one is skipped). -/
def jsClassScanStep (comments : Int → Option String) (st : JsClassScan) (child : Node) :
    JsClassScan :=
  if (child.type = "identifier" ∨ child.type = "type_identifier") ∧ st.class_name = none then
    { st with class_name := some child.text }
  else if child.type = "class_heritage" then
    { st with superclass := jsHeritageScan child.children st.superclass }
  else if child.type = "class_body" then
    { st with methods := st.methods ++ child.children.flatMap (fun body_child =>
        if body_child.type = "method_definition" then
          match jsExtractMethod comments body_child with
          | some m => [m]
          | none => []
        else []) }
  else st

/-- `extract_class(node)` of `extract_js_classes`. -/
def jsExtractClass (comments : Int → Option String) (node : Node) : List JsClassRecord :=
  match node with
  | .mk _ty _tx sr er _fl cs =>
    let st := cs.foldl (jsClassScanStep comments) ⟨none, none, []⟩
    match st.class_name with
    | some class_name =>
      if class_name ≠ "" then
        [⟨class_name, st.superclass, [], st.methods, sr + 1, er + 1⟩]
      else []
    | none => []

mutual

/-- `find_classes(node)` of `extract_js_classes` (lines 663–675): a FULL
recursive walk.  A class node is extracted and the walk stops below it; an
`export_statement` with a class child extracts that child and stops;
otherwise the walk descends into every child — including function bodies. -/
def jsFindClasses (comments : Int → Option String) (node : Node) : List JsClassRecord :=
  match node with
  | .mk ty tx sr er fl cs =>
    if ty = "class_declaration" ∨ ty = "class" then
      jsExtractClass comments (.mk ty tx sr er fl cs)
    else if ty = "export_statement" then
      match cs.find? (fun c => decide (c.type = "class_declaration" ∨ c.type = "class")) with
      | some c => jsExtractClass comments c
      | none => jsFindClassesList comments cs
    else jsFindClassesList comments cs

/-- The child recursion of the JS `find_classes`. -/
def jsFindClassesList (comments : Int → Option String) : List Node → List JsClassRecord
  | [] => []
  | c :: rest => jsFindClasses comments c ++ jsFindClassesList comments rest

end

/-- `extract_js_classes(source_code, tree)`. -/
def extract_js_classes (tree : Node) : List JsClassRecord :=
  jsFindClasses (jsCollectComments emptyComments tree) tree

/-! ## File-level orchestration (`detect_language`, `get_language`,
`parse_file`, batch mode of `main`)

The file read, the tree-sitter parse and each extractor call can raise in
Python; they are modelled as `Except`-valued parameters, and the
`try`/`except` blocks of `parse_file` as explicit case analysis, so that the
sequential-assignment semantics of the extraction block (lines 824–839) is
preserved exactly: record lists assigned before a fault keep their values
when the handler sets `error`. -/

/-- One record of the curly-brace dialects' `imports` list (`default_import`
is the source dict's `default` key, a Lean keyword). -/
structure JsImportRecord where
  source : String
  specifiers : List String
  default_import : Option String
  line : Int
deriving DecidableEq

/-- One record of the curly-brace dialects' `exports` list (`kind` is the
source dict's `type` key). -/
structure JsExportRecord where
  name : String
  kind : String
  is_default : Bool
  line : Int
deriving DecidableEq

/-- The per-file result dict of `parse_file`.  The record lists are
dialect-tagged sums because the Python dict holds either dialect's records
under the same keys. -/
structure FileResult where
  file : String
  language : Option String
  functions : List (Sum PyFunctionRecord JsFunctionRecord)
  imports : List (Sum PyImportRecord JsImportRecord)
  classes : List (Sum PyClassRecord JsClassRecord)
  exports : List JsExportRecord
  error : Option String
deriving DecidableEq

/-- The seven extractor calls of the extraction block, each allowed to raise
(`Except.error` carries the exception text `e` of `except Exception as e`). -/
structure ExtractorSet where
  pyFunctions : String → Node → Except String (List PyFunctionRecord)
  pyImports : String → Node → Except String (List PyImportRecord)
  pyClasses : String → Node → Except String (List PyClassRecord)
  jsFunctions : String → Node → Except String (List JsFunctionRecord)
  jsImports : String → Node → Except String (List JsImportRecord)
  jsClasses : String → Node → Except String (List JsClassRecord)
  jsExports : String → Node → Except String (List JsExportRecord)

/-- `detect_language(file_path)`: `os.path.splitext(file_path)[1]` — the
posixpath algorithm over `rfind('/')` and `rfind('.')`, ignoring a basename
made only of leading dots. -/
def splitextExt (p : String) : String :=
  let cs := p.data
  let sepIndex := rfindChar cs (Char.ofNat 47)
  let dotIndex := rfindChar cs (Char.ofNat 46)
  if dotIndex > sepIndex then
    let between := (cs.drop (sepIndex + 1).toNat).take (dotIndex - sepIndex - 1).toNat
    if between.any (fun c => decide (c ≠ Char.ofNat 46)) then String.mk (cs.drop dotIndex.toNat)
    else ""
  else ""

/-- The extension-to-dialect map of `detect_language` (lines 58–71). -/
def detect_language (file_path : String) : Option String :=
  let ext := strLower (splitextExt file_path)
  if ext = ".py" ∨ ext = ".pyw" then some "python"
  else if ext = ".js" ∨ ext = ".mjs" ∨ ext = ".cjs" ∨ ext = ".jsx" then some "javascript"
  else if ext = ".ts" ∨ ext = ".mts" ∨ ext = ".cts" then some "typescript"
  else if ext = ".tsx" then some "tsx"
  else none

/-- `get_language(lang_name)`: the lazily-cached grammar handle, `none` for
an unknown name (memoisation is observationally the identity and is elided;
the handle itself is opaque and modelled by the name). -/
def get_language (lang_name : String) : Option String :=
  if lang_name = "python" ∨ lang_name = "javascript" ∨ lang_name = "typescript" ∨
      lang_name = "tsx" then some lang_name
  else none

/-- The extraction block of `parse_file` (lines 824–839): per-language
sequential assignments inside one `try`; on a fault the handler sets
`error` and returns, keeping every list assigned before the fault. -/
def runExtraction (X : ExtractorSet) (language_name source_code : String) (tree : Node)
    (result : FileResult) : FileResult :=
  if language_name = "python" then
    match X.pyFunctions source_code tree with
    | .error e => { result with error := some ("Extraction error: " ++ e) }
    | .ok fns =>
      let result := { result with functions := fns.map Sum.inl }
      match X.pyImports source_code tree with
      | .error e => { result with error := some ("Extraction error: " ++ e) }
      | .ok imps =>
        let result := { result with imports := imps.map Sum.inl }
        match X.pyClasses source_code tree with
        | .error e => { result with error := some ("Extraction error: " ++ e) }
        | .ok cls => { result with classes := cls.map Sum.inl }
  else if language_name = "javascript" ∨ language_name = "typescript" ∨
      language_name = "tsx" then
    match X.jsFunctions source_code tree with
    | .error e => { result with error := some ("Extraction error: " ++ e) }
    | .ok fns =>
      let result := { result with functions := fns.map Sum.inr }
      match X.jsImports source_code tree with
      | .error e => { result with error := some ("Extraction error: " ++ e) }
      | .ok imps =>
        let result := { result with imports := imps.map Sum.inr }
        match X.jsClasses source_code tree with
        | .error e => { result with error := some ("Extraction error: " ++ e) }
        | .ok cls =>
          let result := { result with classes := cls.map Sum.inr }
          match X.jsExports source_code tree with
          | .error e => { result with error := some ("Extraction error: " ++ e) }
          | .ok exps => { result with exports := exps }
  else result

/-- `parse_file(file_path)` (lines 777–839), parameterised over the
extractor set `X`, the parsing engine `parse` (per language name and source
text) and the filesystem read `fs` (both may raise). -/
def parse_file (X : ExtractorSet) (parse : String → String → Except String Node)
    (fs : String → Except String String) (file_path : String) : FileResult :=
  let result : FileResult := ⟨file_path, none, [], [], [], [], none⟩
  match detect_language file_path with
  | none => { result with error := some ("Unsupported file type: " ++ file_path) }
  | some language_name =>
    let result := { result with language := some language_name }
    match get_language language_name with
    | none => { result with error := some ("Failed to load language: " ++ language_name) }
    | some _lang =>
      match fs file_path with
      | .error e => { result with error := some ("Failed to read file: " ++ e) }
      | .ok source_code =>
        if source_code.length > 1000000 then
          { result with error := some "File too large (> 1MB)" }
        else
          match parse language_name source_code with
          | .error e => { result with error := some ("Parse error: " ++ e) }
          | .ok tree => runExtraction X language_name source_code tree result

/-- The batch arm of `main` (lines 848–853): one `parse_file` per input
path, in input order. -/
def mainBatch (X : ExtractorSet) (parse : String → String → Except String Node)
    (fs : String → Except String String) (file_paths : List String) : List FileResult :=
  file_paths.map (parse_file X parse fs)

/-! ## Statement-side definitions

`decoratorRun` and the `specFromImport*` functions are written from the
specification's wording (maximal decorator run immediately above a function;
"every name seen after the `import` keyword, pre-alias only, `*` for a
wildcard"), to be compared against the extractors above. -/

/-- The maximal contiguous run of `decorator` siblings immediately above a
node, listed in source top-to-bottom order, given the preceding siblings
`cs` in source order. -/
def decoratorRun (cs : List Node) : List Node :=
  (cs.reverse.takeWhile (fun p => decide (p.type = "decorator"))).reverse

/-- Per the spec: the `names` contribution of one post-`import` child of a
from-import statement — a plain (dotted) name contributes itself, an aliased
name contributes only its pre-alias name (the first name-like child), a
wildcard contributes `"*"`. -/
def specFromImportName (c : Node) : List String :=
  if c.type = "dotted_name" ∨ c.type = "identifier" then [c.text]
  else if c.type = "aliased_import" then
    match c.children.find? (fun ac => decide (ac.type = "dotted_name" ∨ ac.type = "identifier")) with
    | some ac => [ac.text]
    | none => []
  else if c.type = "wildcard_import" then ["*"]
  else []

/-- Per the spec: every name seen after the `import` keyword of a from-import
statement, in source order. -/
def specFromImportNames (cs : List Node) : List String :=
  ((cs.dropWhile (fun c => decide (c.type ≠ "import"))).drop 1).flatMap specFromImportName

/-- Per the spec's nesting rule for the general-purpose function scan: `f` is
a top-level-reachable function definition of the subtree rooted at `n` — it
is reached without passing through any other function definition (the scan
stops there, never entering the body) and without descending into a
`class_definition` child.  Consequently no node that lies inside a function
body is ever related to the root. -/
inductive PyFnReach : Node → Node → Prop where
  | here (n : Node) : n.type = "function_definition" → PyFnReach n n
  | step (n c f : Node) : n.type ≠ "function_definition" → c ∈ n.children →
      c.type ≠ "class_definition" → PyFnReach c f → PyFnReach n f

/-- Per the spec's nesting rule for the curly-brace class walk: `f` is a
class node of the subtree rooted at `n` reached without passing THROUGH any
class node — the walk stops at the first class on each path (either the node
itself, a class child of an `export_statement`, or below any non-class
node).  Consequently a class nested inside another class body is never
related to the root. -/
inductive JsClassReach : Node → Node → Prop where
  | here (n : Node) : n.type = "class_declaration" ∨ n.type = "class" → JsClassReach n n
  | exportHit (n c : Node) : n.type = "export_statement" → c ∈ n.children →
      (c.type = "class_declaration" ∨ c.type = "class") → JsClassReach n c
  | step (n c f : Node) : ¬(n.type = "class_declaration" ∨ n.type = "class") →
      c ∈ n.children → JsClassReach c f → JsClassReach n f

/-! ## Concrete fixtures for witnesses and counterexamples -/

/-- The arrow-function node of `const add = (a: number, b: number): number => a + b;`. -/
def wArrowNode : Node := .mk "arrow_function" "(a: number, b: number): number => a + b" 0 0 (some "value")
  [ .mk "formal_parameters" "(a: number, b: number)" 0 0 none [],
    .mk "type_annotation" ": number" 0 0 none [],
    .mk "=>" "=>" 0 0 none [],
    .mk "binary_expression" "a + b" 0 0 none [] ]

/-- Its `variable_declarator`. -/
def wDeclarator : Node := .mk "variable_declarator" "add = (a: number, b: number): number => a + b" 0 0 none
  [ .mk "identifier" "add" 0 0 (some "name") [],
    .mk "=" "=" 0 0 none [],
    wArrowNode ]

/-- Its `lexical_declaration`. -/
def wLexDecl : Node := .mk "lexical_declaration" "const add = (a: number, b: number): number => a + b;" 0 0 none
  [ .mk "const" "const" 0 0 none [], wDeclarator ]

/-- A one-statement program holding the arrow declaration. -/
def wProgArrow : Node := .mk "program" "" 0 0 none [wLexDecl]

/-- `class Inner {}` nested INSIDE the body of `function outer() { ... }`. -/
def wInnerClass : Node := .mk "class_declaration" "class Inner {}" 2 3 none
  [ .mk "class" "class" 2 2 none [], .mk "type_identifier" "Inner" 2 2 none [],
    .mk "class_body" "{}" 2 3 none [] ]

/-- `function outer() { class Inner {} }`. -/
def wOuterFn : Node := .mk "function_declaration" "function outer() { class Inner {} }" 1 4 none
  [ .mk "identifier" "outer" 1 1 none [], .mk "formal_parameters" "()" 1 1 none [],
    .mk "statement_block" "{ class Inner {} }" 1 4 none [wInnerClass] ]

/-- A program whose only class is declared inside a function body. -/
def wProgNested : Node := .mk "program" "" 0 5 none [wOuterFn]

/-- `function inner() {}` nested inside an anonymous function expression's
body. -/
def wInnerFn : Node := .mk "function_declaration" "function inner() {}" 2 2 none
  [ .mk "identifier" "inner" 2 2 none [], .mk "formal_parameters" "()" 2 2 none [],
    .mk "statement_block" "{}" 2 2 none [] ]

/-- The anonymous `function () { function inner() {} }` passed as a call
argument (so NOT the value of any declarator). -/
def wFnExpr : Node := .mk "function_expression" "function () { function inner() {} }" 1 3 none
  [ .mk "formal_parameters" "()" 1 1 none [],
    .mk "statement_block" "{ function inner() {} }" 1 3 none [wInnerFn] ]

/-- The argument list of `setTimeout(function () { ... }, 0)`. -/
def wCallArgs : Node := .mk "arguments" "(function () { ... }, 0)" 1 3 none
  [ wFnExpr, .mk "number" "0" 3 3 none [] ]

/-- The call `setTimeout(function () { ... }, 0)`. -/
def wCallExpr : Node := .mk "call_expression" "setTimeout(function () { ... }, 0)" 1 3 none
  [ .mk "identifier" "setTimeout" 1 1 none [], wCallArgs ]

/-- A program whose only function declaration, `inner`, sits inside the body
of a function expression in call-argument position. -/
def wProgCall : Node := .mk "program" "" 0 4 none
  [ .mk "expression_statement" "setTimeout(function () { ... }, 0);" 1 3 none [wCallExpr] ]

/-- The decorator `@a` on row 0. -/
def wDecA : Node := .mk "decorator" "@a" 0 0 none []

/-- The decorator `@b` on row 1. -/
def wDecB : Node := .mk "decorator" "@b" 1 1 none []

/-- `def foo(): ...` on rows 2–3. -/
def wFnFoo : Node := .mk "function_definition" "def foo(): ..." 2 3 none
  [ .mk "def" "def" 2 2 none [], .mk "identifier" "foo" 2 2 none [],
    .mk "parameters" "()" 2 2 none [], .mk ":" ":" 2 2 none [],
    .mk "block" "pass" 3 3 none [] ]

/-- The `decorated_definition` wrapping `@a`, `@b` and `foo`. -/
def wDecoratedDef : Node := .mk "decorated_definition" "@a @b def foo" 0 3 none [wDecA, wDecB, wFnFoo]

/-- `from os import path, sep as s, *`. -/
def wFromImport : Node := .mk "import_from_statement" "from os import path, sep as s, *" 0 0 none
  [ .mk "from" "from" 0 0 none [],
    .mk "dotted_name" "os" 0 0 none [],
    .mk "import" "import" 0 0 none [],
    .mk "dotted_name" "path" 0 0 none [],
    .mk "aliased_import" "sep as s" 0 0 none
      [ .mk "dotted_name" "sep" 0 0 none [], .mk "as" "as" 0 0 none [],
        .mk "identifier" "s" 0 0 none [] ],
    .mk "wildcard_import" "*" 0 0 none [] ]

/-- `def _h(): pass` — a private-marked function. -/
def wPrivFn : Node := .mk "function_definition" "def _h(): pass" 0 1 none
  [ .mk "identifier" "_h" 0 0 none [], .mk "parameters" "()" 0 0 none [],
    .mk "block" "pass" 1 1 none [] ]

/-- `class C:` with the private-marked method `_h` in its body. -/
def wClassPriv : Node := .mk "class_definition" "class C: ..." 0 2 none
  [ .mk "class" "class" 0 0 none [], .mk "identifier" "C" 0 0 none [],
    .mk "block" "..." 1 2 none [wPrivFn] ]

/-- A JSDoc comment ending on row 0. -/
def wJsdocProg : Node := .mk "program" "" 0 4 none
  [ .mk "comment" "/** d */" 0 0 none [] ]

/-- `def f(): pass` — a public function, extracted by the real Python
function extractor. -/
def wPubFn : Node := .mk "function_definition" "def f(): pass" 0 1 none
  [ .mk "identifier" "f" 0 0 none [], .mk "parameters" "()" 0 0 none [],
    .mk "block" "pass" 1 1 none [] ]

/-- A module whose only statement is `def f(): pass`. -/
def wProgPy : Node := .mk "module" "" 0 2 none [wPubFn]

/-- An extractor set that never raises and returns empty lists — the
simplest instantiation for exercising the `parse_file` plumbing. -/
def X0 : ExtractorSet :=
  ⟨fun _ _ => .ok [], fun _ _ => .ok [], fun _ _ => .ok [],
   fun _ _ => .ok [], fun _ _ => .ok [], fun _ _ => .ok [], fun _ _ => .ok []⟩

/-- A parsing engine that always raises. -/
def parse0 : String → String → Except String Node := fun _ _ => .error "boom"

/-- A parsing engine returning the one-function Python module above. -/
def parsePy : String → String → Except String Node := fun _ _ => .ok wProgPy

/-- The extractor set realising the documented partial-extraction fault: the
function pass is the real extractor (and succeeds), while the import walk
raises — exactly what happens in the source when a module holds a function
whose body nests expressions beyond the interpreter's recursion limit
(`find_functions` stops at the `function_definition` and never enters the
body, `walk_imports` recurses through it and raises `RecursionError`, which
`except Exception` catches). -/
def XC1 : ExtractorSet :=
  ⟨fun _ t => .ok (extract_python_functions t),
   fun _ _ => .error "maximum recursion depth exceeded",
   fun _ t => .ok (extract_python_classes t),
   fun _ _ => .ok [], fun _ _ => .ok [], fun _ _ => .ok [], fun _ _ => .ok []⟩

/-- A filesystem with exactly one readable (empty) file, `a.py`. -/
def fsOne : String → Except String String :=
  fun p => if p = "a.py" then .ok "" else .error "No such file"

/-- A source text of exactly 1,000,001 characters. -/
def bigStr : String := String.mk (List.replicate 1000001 (Char.ofNat 97))

/-- A source text of exactly 1,000,000 characters. -/
def bigStrOk : String := String.mk (List.replicate 1000000 (Char.ofNat 97))

/-! ## Helper lemmas -/

/-- A list is a prefix of itself followed by anything. -/
theorem isPfxOf_self_append (l m : List Char) : isPfxOf l (l ++ m) = true := by
  induction l with
  | nil => rfl
  | cons c cs ih => simp [isPfxOf, ih]

/-- Two strings whose first characters differ stay different after appending
to the first. -/
theorem append_ne_of_head_ne (p q e : String) (c1 c2 : Char) (hp : p.data.head? = some c1)
    (hq : q.data.head? = some c2) (hne : c1 ≠ c2) : p ++ e ≠ q := by
  intro h
  have hd : (p ++ e).data.head? = q.data.head? := by rw [h]
  rw [String.data_append] at hd
  rcases p with ⟨pd⟩
  rcases pd with _ | ⟨pc, pcs⟩
  · simp at hp
  · simp only [List.cons_append, List.head?_cons] at hd hp
    rw [hq] at hd
    exact hne ((Option.some.inj hp).symm.trans (Option.some.inj hd))

/-- The extraction block never touches the `language` field. -/
theorem runExtraction_language (X : ExtractorSet) (l s : String) (t : Node) (r : FileResult) :
    (runExtraction X l s t r).language = r.language := by
  rw [runExtraction]
  repeat' split
  all_goals rfl

/-- The extraction block either leaves `error` unchanged or sets it to an
`Extraction error: `-prefixed message. -/
theorem runExtraction_error (X : ExtractorSet) (l s : String) (t : Node) (r : FileResult) :
    (runExtraction X l s t r).error = r.error ∨
      ∃ e, (runExtraction X l s t r).error = some ("Extraction error: " ++ e) := by
  rw [runExtraction]
  repeat' split
  all_goals first
    | exact Or.inl rfl
    | exact Or.inr ⟨_, rfl⟩

/-- Every dialect name produced by `detect_language` loads successfully in
`get_language` (the four-name tables agree), so the load-failure arm of
`parse_file` is unreachable from a resolved extension. -/
theorem get_language_of_detect (p : String) (lang : String)
    (h : detect_language p = some lang) : get_language lang = some lang := by
  rw [detect_language] at h
  repeat' split at h
  all_goals first
    | (obtain rfl := Option.some.inj h; decide)
    | exact absurd h (by simp)

/-! ## C1 — error / success exclusivity -/

/-- C1 counterexample: the claim "if `error` is set then all four record lists
are empty, for any error kind including an extraction fault" is FALSE.  The
extraction block assigns `result["functions"]` before running the import walk
(lines 827–828); when the import walk then raises — which happens in the
source for a module holding a function whose body nests expressions beyond
the interpreter's recursion limit, since `find_functions` stops at the
`function_definition` node while `walk_imports` recurses through its body —
the handler sets `error` while the already-assigned `functions` list is kept:
the result carries BOTH an error and a non-empty `functions` list. -/
theorem C1_cex :
    (parse_file XC1 parsePy (fun _ => .ok "def f(): pass") "deep.py").error =
      some "Extraction error: maximum recursion depth exceeded" ∧
    (parse_file XC1 parsePy (fun _ => .ok "def f(): pass") "deep.py").functions ≠ [] := by
  decide

/-- C1 (amended): if a FileResult's `error` is set to anything other than an
`Extraction error: ` message (unsupported extension, load failure, read
failure, size ceiling, parse failure), then all four record lists are empty;
an extraction fault, by contrast, may retain record lists assigned before the
faulting extractor ran. -/
theorem C1_error_isolation (X : ExtractorSet) (parse : String → String → Except String Node)
    (fs : String → Except String String) (path : String) (e : String)
    (herr : (parse_file X parse fs path).error = some e) :
    strStartsWith e "Extraction error: " = true ∨
    ((parse_file X parse fs path).functions = [] ∧
      (parse_file X parse fs path).imports = [] ∧
      (parse_file X parse fs path).classes = [] ∧
      (parse_file X parse fs path).exports = []) := by
  rcases hdet : detect_language path with _ | lang
  · right
    simp [parse_file, hdet]
  · rcases hget : get_language lang with _ | glang
    · right
      simp [parse_file, hdet, hget]
    · rcases hfs : fs path with e2 | src
      · right
        simp [parse_file, hdet, hget, hfs]
      · by_cases hbig : src.length > 1000000
        · right
          simp only [parse_file, hdet, hget, hfs]
          rw [if_pos hbig]
          exact ⟨rfl, rfl, rfl, rfl⟩
        · rcases hp : parse lang src with e3 | tree
          · right
            simp only [parse_file, hdet, hget, hfs]
            rw [if_neg hbig]
            simp [hp]
          · left
            simp only [parse_file, hdet, hget, hfs] at herr
            rw [if_neg hbig] at herr
            simp only [hp] at herr
            rcases runExtraction_error X lang src tree ⟨path, some lang, [], [], [], [], none⟩
              with h | ⟨e0, h⟩
            · rw [h] at herr
              exact absurd herr (by simp)
            · rw [h] at herr
              obtain rfl := Option.some.inj herr
              rw [strStartsWith, String.data_append]
              exact isPfxOf_self_append _ _

/-- C1 witness: at the unsupported extension `nope.xyz` the error is set and
every record list is empty. -/
theorem C1_witness :
    strStartsWith "Unsupported file type: nope.xyz" "Extraction error: " = true ∨
    ((parse_file X0 parse0 (fun _ => .error "x") "nope.xyz").functions = [] ∧
      (parse_file X0 parse0 (fun _ => .error "x") "nope.xyz").imports = [] ∧
      (parse_file X0 parse0 (fun _ => .error "x") "nope.xyz").classes = [] ∧
      (parse_file X0 parse0 (fun _ => .error "x") "nope.xyz").exports = []) := by
  exact C1_error_isolation X0 parse0 (fun _ => .error "x") "nope.xyz"
    "Unsupported file type: nope.xyz" (by decide)

/-! ## C2 — nesting exclusions -/

/-- At a `function_definition` node the Python function scan emits at most
the node's own record (whose start line is the node's own) and never recurses
into the body — so a function inside a function body is never emitted. -/
theorem pyFindFunctions_fn_shape (prevRev : List Node) (n : Node) (top : Bool)
    (h : n.type = "function_definition") :
    pyFindFunctions prevRev n top = [] ∨
      ∃ r, pyFindFunctions prevRev n top = [r] ∧ r.start_line = n.startRow + 1 ∧
        r.decorators = pyCollectDecorators prevRev := by
  obtain ⟨ty, tx, sr, er, fl, cs⟩ := n
  simp only [Node.type] at h
  subst h
  rcases hname : (cs.foldl pyFnScanStep ⟨none, none, none, none⟩).func_name with _ | nm
  · simp [pyFindFunctions, hname]
  · by_cases hok : nm ≠ "" ∧ ¬strStartsWith nm "_"
    · have hsimp : pyFindFunctions prevRev (.mk "function_definition" tx sr er fl cs) top =
        [⟨nm, pySignature nm (cs.foldl pyFnScanStep ⟨none, none, none, none⟩).params
            (cs.foldl pyFnScanStep ⟨none, none, none, none⟩).return_type,
          pyOrStr (cs.foldl pyFnScanStep ⟨none, none, none, none⟩).params "()",
          (cs.foldl pyFnScanStep ⟨none, none, none, none⟩).return_type,
          (cs.foldl pyFnScanStep ⟨none, none, none, none⟩).docstring,
          pyCollectDecorators prevRev, sr + 1, er + 1,
          cs.any (fun c => decide (c.type = "async"))⟩] := by
        simp only [pyFindFunctions, hname, if_true, eq_self_iff_true]
        rw [if_pos hok]
      exact Or.inr ⟨_, hsimp, rfl, rfl⟩
    · simp only [pyFindFunctions, hname, if_true, eq_self_iff_true]
      rw [if_neg hok]
      exact Or.inl rfl

/-- A successfully extracted JS function record starts on the node's own row. -/
theorem jsExtractFunctionInfo_start_line (comments : Int → Option String) (n : Node)
    (hint : Option String) (info : JsFunctionRecord)
    (h : jsExtractFunctionInfo comments n hint = some info) :
    info.start_line = n.startRow + 1 := by
  obtain ⟨ty, tx, sr, er, fl, cs⟩ := n
  rcases hname : (cs.foldl jsFnScanStep ⟨hint, none, none, false, false⟩).func_name with _ | nm
  · simp [jsExtractFunctionInfo, hname] at h
  · simp only [jsExtractFunctionInfo, hname] at h
    split at h
    · exact absurd h (by simp)
    · split at h
      · exact absurd h (by simp)
      · simp only [Option.some.injEq] at h
        subst h
        rfl

/-- At a `function_declaration` node the JS function scan emits at most the
node's own record and never recurses into the body. -/
theorem jsFindFunctions_decl_shape (comments : Int → Option String) (n : Node) (top : Bool)
    (h : n.type = "function_declaration") :
    jsFindFunctions comments n top = [] ∨
      ∃ r, jsFindFunctions comments n top = [r] ∧ r.start_line = n.startRow + 1 := by
  obtain ⟨ty, tx, sr, er, fl, cs⟩ := n
  simp only [Node.type] at h
  subst h
  rcases hinfo : jsExtractFunctionInfo comments (.mk "function_declaration" tx sr er fl cs) none
    with _ | info
  · simp [jsFindFunctions, hinfo]
  · refine Or.inr ⟨info, ?_, jsExtractFunctionInfo_start_line _ _ _ _ hinfo⟩
    simp only [jsFindFunctions, hinfo, if_true, eq_self_iff_true]

/-- The JS `extract_class` emits at most one record, for the class node
itself. -/
theorem jsExtractClass_shape (comments : Int → Option String) (n : Node) :
    jsExtractClass comments n = [] ∨
      ∃ r, jsExtractClass comments n = [r] ∧ r.start_line = n.startRow + 1 := by
  obtain ⟨ty, tx, sr, er, fl, cs⟩ := n
  rcases hname : (cs.foldl (jsClassScanStep comments) ⟨none, none, []⟩).class_name with _ | nm
  · simp [jsExtractClass, hname]
  · by_cases hok : nm ≠ ""
    · have hsimp : jsExtractClass comments (.mk ty tx sr er fl cs) =
        [⟨nm, (cs.foldl (jsClassScanStep comments) ⟨none, none, []⟩).superclass, [],
          (cs.foldl (jsClassScanStep comments) ⟨none, none, []⟩).methods, sr + 1, er + 1⟩] := by
        simp only [jsExtractClass, hname]
        rw [if_pos hok]
      exact Or.inr ⟨_, hsimp, rfl⟩
    · simp only [jsExtractClass, hname]
      rw [if_neg hok]
      exact Or.inl rfl

/-- A reached node is itself a function definition. -/
theorem PyFnReach_type {n f : Node} (h : PyFnReach n f) : f.type = "function_definition" := by
  induction h with
  | here n hn => exact hn
  | step n c f h1 h2 h3 h4 ih => exact ih

/-- A reached node is itself a class node. -/
theorem JsClassReach_type {n f : Node} (h : JsClassReach n f) :
    f.type = "class_declaration" ∨ f.type = "class" := by
  induction h with
  | here n hn => exact hn
  | exportHit n c h1 h2 h3 => exact h3
  | step n c f h1 h2 h3 ih => exact ih

mutual

/-- Universal soundness of the Python function scan: every emitted record is
the own record of a function definition `f` reached without crossing another
function definition (the walk returns there without entering the body) and
without descending into a `class_definition` child — so nothing declared
inside a function body or a class body (beyond the separate method harvest)
is ever emitted. -/
theorem pyFFReach_sound : ∀ (n : Node) (prevRev : List Node) (top : Bool) (r : PyFunctionRecord),
    r ∈ pyFindFunctions prevRev n top →
    ∃ f prev2, PyFnReach n f ∧ r ∈ pyFindFunctions prev2 f true
  | .mk ty tx sr er fl cs, prevRev, top, r => by
    intro hr
    by_cases hty : ty = "function_definition"
    · subst hty
      refine ⟨.mk "function_definition" tx sr er fl cs, prevRev, .here _ rfl, ?_⟩
      have hEq : pyFindFunctions prevRev (Node.mk "function_definition" tx sr er fl cs) top =
          pyFindFunctions prevRev (Node.mk "function_definition" tx sr er fl cs) true := by
        simp [pyFindFunctions]
      rw [← hEq]
      exact hr
    · have hr2 : r ∈ (if top = true then pyFindFunctionsChildren cs [] else []) := by
        simpa [pyFindFunctions, hty] using hr
      cases top with
      | false => simp at hr2
      | true =>
        simp only [if_true, eq_self_iff_true] at hr2
        obtain ⟨c, f, prev2, hcmem, hcty, hreach, hrf⟩ := pyFFCReach_sound cs [] r hr2
        refine ⟨f, prev2, ?_, hrf⟩
        exact .step _ c f (by simpa [Node.type] using hty) (by simpa [Node.children] using hcmem)
          hcty hreach

/-- The sibling-loop part of the Python soundness argument. -/
theorem pyFFCReach_sound : ∀ (cs : List Node) (acc : List Node) (r : PyFunctionRecord),
    r ∈ pyFindFunctionsChildren cs acc →
    ∃ c f prev2, c ∈ cs ∧ c.type ≠ "class_definition" ∧ PyFnReach c f ∧
      r ∈ pyFindFunctions prev2 f true
  | [], acc, r => by
    intro hr
    simp [pyFindFunctionsChildren] at hr
  | c :: cs, acc, r => by
    intro hr
    simp only [pyFindFunctionsChildren] at hr
    rcases List.mem_append.mp hr with h | h
    · by_cases hc : c.type ≠ "class_definition"
      · rw [if_pos hc] at h
        obtain ⟨f, prev2, hreach, hrf⟩ := pyFFReach_sound c acc true r h
        exact ⟨c, f, prev2, List.mem_cons_self _ _, hc, hreach, hrf⟩
      · rw [if_neg hc] at h
        simp at h
    · obtain ⟨c2, f, prev2, hmem, hcty, hreach, hrf⟩ := pyFFCReach_sound cs (c :: acc) r h
      exact ⟨c2, f, prev2, List.mem_cons_of_mem _ hmem, hcty, hreach, hrf⟩

end

mutual

/-- Universal soundness of the JS class walk: every emitted record comes from
`extract_class` at a class node reached without passing through any class
node — so a class nested inside another class body never appears (a class
inside a FUNCTION body, however, is reached, as the counterexample shows). -/
theorem jsFCReach_sound : ∀ (n : Node) (comments : Int → Option String) (r : JsClassRecord),
    r ∈ jsFindClasses comments n →
    ∃ f, JsClassReach n f ∧ r ∈ jsExtractClass comments f
  | .mk ty tx sr er fl cs, comments, r => by
    intro hr
    by_cases hcls : ty = "class_declaration" ∨ ty = "class"
    · have hEq : jsFindClasses comments (.mk ty tx sr er fl cs) =
          jsExtractClass comments (.mk ty tx sr er fl cs) := by
        simp only [jsFindClasses]
        rw [if_pos hcls]
      rw [hEq] at hr
      exact ⟨_, .here _ (by simpa [Node.type] using hcls), hr⟩
    · by_cases hexp : ty = "export_statement"
      · rcases hfind : cs.find?
            (fun c => decide (c.type = "class_declaration" ∨ c.type = "class")) with _ | c
        · have hr2 : r ∈ jsFindClassesList comments cs := by
            have hEq : jsFindClasses comments (.mk ty tx sr er fl cs) =
                jsFindClassesList comments cs := by
              simp only [jsFindClasses]
              rw [if_neg hcls, if_pos hexp, hfind]
            rwa [hEq] at hr
          obtain ⟨c2, f, hmem, hreach, hrf⟩ := jsFCLReach_sound cs comments r hr2
          exact ⟨f, .step _ c2 f (by simpa [Node.type] using hcls)
            (by simpa [Node.children] using hmem) hreach, hrf⟩
        · have hr2 : r ∈ jsExtractClass comments c := by
            have hEq : jsFindClasses comments (.mk ty tx sr er fl cs) =
                jsExtractClass comments c := by
              simp only [jsFindClasses]
              rw [if_neg hcls, if_pos hexp, hfind]
            rwa [hEq] at hr
          have hcmem : c ∈ cs := List.mem_of_find?_eq_some hfind
          have hcty : c.type = "class_declaration" ∨ c.type = "class" := by
            have h1 := List.find?_some hfind
            exact of_decide_eq_true h1
          exact ⟨c, .exportHit _ c (by simpa [Node.type] using hexp)
            (by simpa [Node.children] using hcmem) hcty, hr2⟩
      · have hr2 : r ∈ jsFindClassesList comments cs := by
          have hEq : jsFindClasses comments (.mk ty tx sr er fl cs) =
              jsFindClassesList comments cs := by
            simp only [jsFindClasses]
            rw [if_neg hcls, if_neg hexp]
          rwa [hEq] at hr
        obtain ⟨c2, f, hmem, hreach, hrf⟩ := jsFCLReach_sound cs comments r hr2
        exact ⟨f, .step _ c2 f (by simpa [Node.type] using hcls)
          (by simpa [Node.children] using hmem) hreach, hrf⟩

/-- The child-recursion part of the JS class soundness argument. -/
theorem jsFCLReach_sound : ∀ (cs : List Node) (comments : Int → Option String)
    (r : JsClassRecord), r ∈ jsFindClassesList comments cs →
    ∃ c f, c ∈ cs ∧ JsClassReach c f ∧ r ∈ jsExtractClass comments f
  | [], comments, r => by
    intro hr
    simp [jsFindClassesList] at hr
  | c :: cs, comments, r => by
    intro hr
    simp only [jsFindClassesList] at hr
    rcases List.mem_append.mp hr with h | h
    · obtain ⟨f, hreach, hrf⟩ := jsFCReach_sound c comments r h
      exact ⟨c, f, List.mem_cons_self _ _, hreach, hrf⟩
    · obtain ⟨c2, f, hmem, hreach, hrf⟩ := jsFCLReach_sound cs comments r h
      exact ⟨c2, f, List.mem_cons_of_mem _ hmem, hreach, hrf⟩

end

/-- One step of `extract_class`'s child fold touches `methods` only at a
`block` child, appending that block's harvest. -/
theorem pyClassScanStep_methods (st : PyClassScan) (c : Node) :
    (pyClassScanStep st c).methods =
      st.methods ++ (if c.type = "block" then pyBlockMethods c.children else []) := by
  by_cases h1 : c.type = "identifier"
  · simp [pyClassScanStep, h1]
  · by_cases h2 : c.type = "argument_list"
    · simp only [pyClassScanStep, h1, h2]
      split <;> simp [h2]
      all_goals (split <;> rfl)
    · by_cases h3 : c.type = "block"
      · simp [pyClassScanStep, h1, h2, h3]
      · simp [pyClassScanStep, h1, h2, h3]

/-- The methods of a class fold are exactly the concatenated harvests of its
`block` children. -/
theorem pyClassScan_methods : ∀ (cs : List Node) (st : PyClassScan),
    (cs.foldl pyClassScanStep st).methods =
      st.methods ++ cs.flatMap (fun c => if c.type = "block" then pyBlockMethods c.children
        else []) := by
  intro cs
  induction cs with
  | nil => intro st; simp
  | cons c cs ih =>
    intro st
    simp only [List.foldl_cons, List.flatMap_cons]
    rw [ih, pyClassScanStep_methods, List.append_assoc]

/-- One-level harvest: every method of a Python class record comes from an
IMMEDIATE child of a `block` child of the class node — a bare function
definition or one wrapped in a `decorated_definition`; nothing deeper is
ever expanded. -/
theorem pyExtractClass_methods_one_level (n : Node) (decs : List String) (r : PyClassRecord)
    (hr : r ∈ pyExtractClass n decs) :
    ∀ m ∈ r.methods, ∃ blk ∈ n.children, blk.type = "block" ∧
      ∃ bc ∈ blk.children,
        (bc.type = "function_definition" ∧ m = pyExtractMethod bc []) ∨
        (bc.type = "decorated_definition" ∧ ∃ fn,
          lastOfType bc.children "function_definition" = some fn ∧
          m = pyExtractMethod fn
            ((bc.children.filter (fun dc => decide (dc.type = "decorator"))).map Node.text)) := by
  obtain ⟨ty, tx, sr, er, fl, cs⟩ := n
  intro m hm
  rcases hname : (cs.foldl pyClassScanStep ⟨none, none, []⟩).class_name with _ | nm
  · simp [pyExtractClass, hname] at hr
  · simp only [pyExtractClass, hname] at hr
    by_cases hok : nm ≠ ""
    · rw [if_pos hok] at hr
      simp only [List.mem_singleton] at hr
      subst hr
      have hms : m ∈ (cs.foldl pyClassScanStep ⟨none, none, []⟩).methods := hm
      rw [pyClassScan_methods] at hms
      simp only [List.nil_append, List.mem_flatMap] at hms
      obtain ⟨blk, hblk, hmb⟩ := hms
      by_cases hbt : blk.type = "block"
      · rw [if_pos hbt] at hmb
        refine ⟨blk, by simpa [Node.children] using hblk, hbt, ?_⟩
        rw [pyBlockMethods, List.mem_flatMap] at hmb
        obtain ⟨bc, hbc, hmbc⟩ := hmb
        refine ⟨bc, hbc, ?_⟩
        by_cases hfd : bc.type = "function_definition"
        · rw [if_pos hfd] at hmbc
          simp only [List.mem_singleton] at hmbc
          exact Or.inl ⟨hfd, hmbc⟩
        · rw [if_neg hfd] at hmbc
          by_cases hdd : bc.type = "decorated_definition"
          · rw [if_pos hdd] at hmbc
            rcases hlast : lastOfType bc.children "function_definition" with _ | fn
            · rw [hlast] at hmbc
              simp at hmbc
            · rw [hlast] at hmbc
              simp only [List.mem_singleton] at hmbc
              exact Or.inr ⟨hdd, fn, rfl, hmbc⟩
          · rw [if_neg hdd] at hmbc
            simp at hmbc
      · rw [if_neg hbt] at hmb
        simp at hmb
    · rw [if_neg hok] at hr
      simp at hr

/-- The declarator branch of the JS function scan: every record emitted at a
lexical/variable declaration is built from a declarator's `value` node ALONE
(its immediate children; the body is never descended into), either verbatim
or with the arrow re-rendered signature. -/
theorem jsFindFunctions_decl_branch (comments : Int → Option String) (ty tx : String)
    (sr er : Int) (fl : Option String) (cs : List Node) (top : Bool) (r : JsFunctionRecord)
    (hty : ty = "lexical_declaration" ∨ ty = "variable_declaration")
    (hr : r ∈ jsFindFunctions comments (.mk ty tx sr er fl cs) top) :
    ∃ d, d ∈ cs ∧ d.type = "variable_declarator" ∧ ∃ nn v info,
      childByFieldName d "name" = some nn ∧ childByFieldName d "value" = some v ∧
      (v.type = "arrow_function" ∨ v.type = "function_expression") ∧
      jsExtractFunctionInfo comments v (some nn.text) = some info ∧
      (r = info ∨
        r = { info with
              signature := "const " ++ nn.text ++ " = " ++
                (if info.is_async then "async " else "") ++ info.parameters ++ " =>" ++
                jsArrowRetSuffix info.return_type }) := by
  have hne1 : ty ≠ "function_declaration" := by
    rcases hty with h | h <;> (subst h; decide)
  simp only [jsFindFunctions] at hr
  rw [if_neg hne1, if_pos hty] at hr
  rw [List.mem_flatMap] at hr
  obtain ⟨d, hd, hrd⟩ := hr
  refine ⟨d, hd, ?_⟩
  by_cases hdty : d.type = "variable_declarator"
  · rcases hnn : childByFieldName d "name" with _ | nn
    · simp only [hdty, eq_self_iff_true, if_true, hnn] at hrd
      rcases childByFieldName d "value" with _ | v <;> simp at hrd
    · rcases hv : childByFieldName d "value" with _ | v
      · simp only [hdty, eq_self_iff_true, if_true, hnn, hv] at hrd
        simp at hrd
      · simp only [hdty, eq_self_iff_true, if_true, hnn, hv] at hrd
        by_cases harrow : v.type = "arrow_function" ∨ v.type = "function_expression"
        · rw [if_pos harrow] at hrd
          rcases hinfo : jsExtractFunctionInfo comments v (some nn.text) with _ | info
          · simp only [hinfo] at hrd
            simp at hrd
          · simp only [hinfo] at hrd
            by_cases hva : v.type = "arrow_function"
            · rw [if_pos hva] at hrd
              simp only [List.mem_singleton] at hrd
              exact ⟨hdty, nn, v, info, rfl, rfl, harrow, hinfo, Or.inr hrd⟩
            · rw [if_neg hva] at hrd
              simp only [List.mem_singleton] at hrd
              exact ⟨hdty, nn, v, info, rfl, rfl, harrow, hinfo, Or.inl hrd⟩
        · rw [if_neg harrow] at hrd
          simp at hrd
  · rw [if_neg hdty] at hrd
    simp at hrd

/-- C2 counterexample: the claim is FALSE for the curly-brace dialects on
BOTH kinds of declaration.  In `wProgNested` the only class, `Inner`, sits
inside the statement block of `function outer()`, yet the JS class extractor
— a full deep traversal, not a root-level scan — emits a ClassRecord for it.
In `wProgCall` the only named function, `inner`, sits inside the body of an
anonymous function expression in call-argument position, and the JS function
scan — which always recurses with `is_top_level=True` and stops descending
only below `function_declaration`, declarator, export and class nodes —
emits a FunctionRecord for it. -/
theorem C2_cex :
    extract_js_classes wProgNested = [⟨"Inner", none, [], [], 3, 4⟩] ∧
    extract_js_functions wProgCall =
      [⟨"inner", "function inner()", "()", none, none, [], 3, 3, false, false⟩] := by
  constructor
  · decide
  · decide

/-- C2 (amended): the nesting exclusions that DO hold.  General-purpose
dialect, in full: (1) every FunctionRecord is the own record of a function
definition reached without crossing another function definition and without
descending into a class-definition child (`PyFnReach`) — so nothing declared
inside a function body ever appears; (2) at a function definition the scan
emits at most that node's own record; (3) every ClassRecord comes from a
root-level class child; (4) every method comes from an IMMEDIATE child of
the class body, one level only.  Curly-brace dialects, the stops that hold:
(5) a `function_declaration`'s body is never descended into; (6) every record
of the declarator branch is built from the declarator's value node alone,
its body never entered; (7) every ClassRecord comes from a class node
reached without passing through any class node (`JsClassReach`) — so a class
nested inside another class body never appears; (8) the class walk stops at
a class node, emitting at most that class.  Per the counterexample, the
curly-brace walks DO descend into function-expression and arrow-function
bodies met outside declarator position, so the original claim's blanket
exclusion fails there. -/
theorem C2_amended :
    (∀ (prevRev : List Node) (n : Node) (top : Bool) (r : PyFunctionRecord),
      r ∈ pyFindFunctions prevRev n top →
      ∃ f prev2, PyFnReach n f ∧ r ∈ pyFindFunctions prev2 f true) ∧
    (∀ (prevRev : List Node) (n : Node) (top : Bool), n.type = "function_definition" →
      (∀ r ∈ pyFindFunctions prevRev n top, r.start_line = n.startRow + 1) ∧
      (pyFindFunctions prevRev n top).length ≤ 1) ∧
    (∀ (root : Node) (r : PyClassRecord), r ∈ pyFindClasses root →
      ∃ c ∈ root.children, c.type = "class_definition" ∨ c.type = "decorated_definition") ∧
    (∀ (n : Node) (decs : List String) (r : PyClassRecord), r ∈ pyExtractClass n decs →
      ∀ m ∈ r.methods, ∃ blk ∈ n.children, blk.type = "block" ∧
        ∃ bc ∈ blk.children,
          (bc.type = "function_definition" ∧ m = pyExtractMethod bc []) ∨
          (bc.type = "decorated_definition" ∧ ∃ fn,
            lastOfType bc.children "function_definition" = some fn ∧
            m = pyExtractMethod fn
              ((bc.children.filter (fun dc => decide (dc.type = "decorator"))).map Node.text))) ∧
    (∀ (comments : Int → Option String) (n : Node) (top : Bool),
      n.type = "function_declaration" →
      (∀ r ∈ jsFindFunctions comments n top, r.start_line = n.startRow + 1) ∧
      (jsFindFunctions comments n top).length ≤ 1) ∧
    (∀ (comments : Int → Option String) (ty tx : String) (sr er : Int) (fl : Option String)
      (cs : List Node) (top : Bool) (r : JsFunctionRecord),
      (ty = "lexical_declaration" ∨ ty = "variable_declaration") →
      r ∈ jsFindFunctions comments (.mk ty tx sr er fl cs) top →
      ∃ d, d ∈ cs ∧ d.type = "variable_declarator" ∧ ∃ nn v info,
        childByFieldName d "name" = some nn ∧ childByFieldName d "value" = some v ∧
        (v.type = "arrow_function" ∨ v.type = "function_expression") ∧
        jsExtractFunctionInfo comments v (some nn.text) = some info ∧
        (r = info ∨
          r = { info with
                signature := "const " ++ nn.text ++ " = " ++
                  (if info.is_async then "async " else "") ++ info.parameters ++ " =>" ++
                  jsArrowRetSuffix info.return_type })) ∧
    (∀ (comments : Int → Option String) (n : Node) (r : JsClassRecord),
      r ∈ jsFindClasses comments n →
      ∃ f, JsClassReach n f ∧ r ∈ jsExtractClass comments f) ∧
    (∀ (comments : Int → Option String) (n : Node),
      (n.type = "class_declaration" ∨ n.type = "class") →
      (∀ r ∈ jsFindClasses comments n, r.start_line = n.startRow + 1) ∧
      (jsFindClasses comments n).length ≤ 1) := by
  refine ⟨?_, ?_, ?_, ?_, ?_, ?_, ?_, ?_⟩
  · intro prevRev n top r hr
    exact pyFFReach_sound n prevRev top r hr
  · intro prevRev n top h
    rcases pyFindFunctions_fn_shape prevRev n top h with h0 | ⟨r0, h1, h2, _⟩
    · rw [h0]; simp
    · rw [h1]; simpa using h2
  · rintro ⟨ty, tx, sr, er, fl, cs⟩ r hr
    simp only [pyFindClasses, Node.children] at hr
    rw [List.mem_flatMap] at hr
    obtain ⟨c, hc, hrc⟩ := hr
    refine ⟨c, by simpa [Node.children] using hc, ?_⟩
    by_cases h1 : c.type = "class_definition"
    · exact Or.inl h1
    · by_cases h2 : c.type = "decorated_definition"
      · exact Or.inr h2
      · simp [h1, h2] at hrc
  · intro n decs r hr
    exact pyExtractClass_methods_one_level n decs r hr
  · intro comments n top h
    rcases jsFindFunctions_decl_shape comments n top h with h0 | ⟨r0, h1, h2⟩
    · rw [h0]; simp
    · rw [h1]; simpa using h2
  · intro comments ty tx sr er fl cs top r hty hr
    exact jsFindFunctions_decl_branch comments ty tx sr er fl cs top r hty hr
  · intro comments n r hr
    exact jsFCReach_sound n comments r hr
  · intro comments n h
    obtain ⟨ty, tx, sr, er, fl, cs⟩ := n
    simp only [Node.type] at h
    have hcls : jsFindClasses comments (.mk ty tx sr er fl cs) =
        jsExtractClass comments (.mk ty tx sr er fl cs) := by
      simp only [jsFindClasses]
      rw [if_pos h]
    rw [hcls]
    rcases jsExtractClass_shape comments (.mk ty tx sr er fl cs) with h0 | ⟨r0, h1, h2⟩
    · rw [h0]; simp
    · rw [h1]; simpa using h2

/-- C2 witness: the amended statement instantiated at the decorated `foo`
function and at the nested `Inner` class. -/
theorem C2_amended_witness :
    (⟨"foo", "def foo()", "()", none, none, ["@a", "@b"], 3, 4, false⟩ : PyFunctionRecord).start_line =
        wFnFoo.startRow + 1 ∧
    (pyFindFunctions [wDecB, wDecA] wFnFoo true).length ≤ 1 ∧
    (jsFindClasses (jsCollectComments emptyComments wProgNested) wInnerClass).length ≤ 1 := by
  have h := C2_amended
  exact ⟨(h.2.1 [wDecB, wDecA] wFnFoo true (by decide)).1 _ (by decide),
    (h.2.1 [wDecB, wDecA] wFnFoo true (by decide)).2,
    (h.2.2.2.2.2.2.2 (jsCollectComments emptyComments wProgNested) wInnerClass (by decide)).2⟩

/-! ## C3 — decorator order -/

/-- The backward decorator walk equals, for any accumulator, the
source-order decorator run prepended: inserting each bottom-to-top discovery
at the front restores top-to-bottom order. -/
theorem pyDecoratorWalk_eq (l : List Node) (acc : List String) :
    pyDecoratorWalk l acc =
      (l.takeWhile (fun p => decide (p.type = "decorator"))).reverse.map Node.text ++ acc := by
  induction l generalizing acc with
  | nil => simp [pyDecoratorWalk]
  | cons p ps ih =>
    by_cases hp : p.type = "decorator"
    · simp [pyDecoratorWalk, if_pos hp, ih, List.takeWhile_cons, hp]
    · simp [pyDecoratorWalk, if_neg hp, List.takeWhile_cons, hp]

/-- Splitting the sibling loop of `find_functions` around any position: the
node at that position is visited with exactly its preceding siblings
(reversed) as `prev_sibling` context. -/
theorem pyFindFunctionsChildren_append (cs1 rest acc : List Node) :
    pyFindFunctionsChildren (cs1 ++ rest) acc =
      pyFindFunctionsChildren cs1 acc ++ pyFindFunctionsChildren rest (cs1.reverse ++ acc) := by
  induction cs1 generalizing acc with
  | nil => simp [pyFindFunctionsChildren]
  | cons c cs ih =>
    simp only [List.cons_append, pyFindFunctionsChildren, List.append_eq, ih,
      List.reverse_cons, List.append_assoc, List.singleton_append, List.nil_append]

/-- The decorator run is a suffix of the preceding-sibling list — i.e. it is
listed in source order, never reversed. -/
theorem decoratorRun_suffix (cs : List Node) : decoratorRun cs <:+ cs := by
  have h := List.takeWhile_prefix (l := cs.reverse) (fun p => decide (p.type = "decorator"))
  rw [decoratorRun]
  nth_rewrite 2 [← List.reverse_reverse cs]
  exact List.reverse_suffix.mpr h

/-- C3: for a top-level `function_definition` preceded by the siblings `cs1`
(in source order), every emitted record's `decorators` equal the text of the
maximal decorator run at the end of `cs1`, top-to-bottom — even though the
extractor discovers them by walking `prev_sibling` links bottom-to-top and
front-inserting — and that record is emitted by the walk of the whole parent;
the run itself is a suffix of `cs1`, hence in source order. -/
theorem C3_decorator_order (ty tx : String) (sr er : Int) (fl : Option String)
    (cs1 : List Node) (n : Node) (cs2 : List Node)
    (hty : ty ≠ "function_definition") (hn : n.type = "function_definition") :
    (∀ r ∈ pyFindFunctions cs1.reverse n true,
      r.decorators = (decoratorRun cs1).map Node.text ∧
      r ∈ pyFindFunctions [] (.mk ty tx sr er fl (cs1 ++ n :: cs2)) true) ∧
    decoratorRun cs1 <:+ cs1 := by
  constructor
  · intro r hr
    constructor
    · rcases pyFindFunctions_fn_shape cs1.reverse n true hn with h0 | ⟨r0, h1, _, h3⟩
      · rw [h0] at hr; simp at hr
      · rw [h1] at hr
        simp only [List.mem_singleton] at hr
        subst hr
        rw [h3, pyCollectDecorators, pyDecoratorWalk_eq, List.append_nil, decoratorRun,
          List.map_reverse]
    · have hparent : pyFindFunctions [] (.mk ty tx sr er fl (cs1 ++ n :: cs2)) true =
          pyFindFunctionsChildren (cs1 ++ n :: cs2) [] := by
        simp only [pyFindFunctions]
        rw [if_neg hty]
        simp
      have hcls : n.type ≠ "class_definition" := by rw [hn]; decide
      rw [hparent, pyFindFunctionsChildren_append, List.append_nil]
      refine List.mem_append_right _ ?_
      show r ∈ pyFindFunctionsChildren (n :: cs2) cs1.reverse
      simp only [pyFindFunctionsChildren]
      rw [if_pos hcls]
      exact List.mem_append_left _ hr
  · exact decoratorRun_suffix cs1

/-- C3 witness: `@a` then `@b` above `def foo` yields `decorators = ["@a",
"@b"]` in source order, inside the walk of the whole decorated definition. -/
theorem C3_witness :
    (⟨"foo", "def foo()", "()", none, none, ["@a", "@b"], 3, 4, false⟩ : PyFunctionRecord).decorators
        = (decoratorRun [wDecA, wDecB]).map Node.text ∧
    (⟨"foo", "def foo()", "()", none, none, ["@a", "@b"], 3, 4, false⟩ : PyFunctionRecord) ∈
      pyFindFunctions [] (.mk "decorated_definition" "@a @b def foo" 0 3 none
        [wDecA, wDecB, wFnFoo]) true := by
  have h := (C3_decorator_order "decorated_definition" "@a @b def foo" 0 3 none
    [wDecA, wDecB] wFnFoo [] (by decide) (by decide)).1
    ⟨"foo", "def foo()", "()", none, none, ["@a", "@b"], 3, 4, false⟩ (by decide)
  exact ⟨h.1, h.2⟩

/-! ## C4 — private-marker handling -/

/-- C4: a top-level function whose scanned name starts with `_` is dropped
entirely by the Python scan; the Python method extractor keeps such a name,
only setting `is_private`; every `function_definition` child of a class body
yields a method record; the JS function extractor drops a `_`-marked name;
and the JS method extractor keeps a (non-empty) `_`-marked name with
`is_private` set. -/
theorem C4_private_marker :
    (∀ (prevRev : List Node) (n : Node) (top : Bool) (nm : String),
      n.type = "function_definition" →
      (n.children.foldl pyFnScanStep ⟨none, none, none, none⟩).func_name = some nm →
      strStartsWith nm "_" = true →
      pyFindFunctions prevRev n top = []) ∧
    (∀ (n : Node) (decs : List String) (nm : String),
      (n.children.foldl pyFnScanStep ⟨none, none, none, none⟩).func_name = some nm →
      strStartsWith nm "_" = true →
      (pyExtractMethod n decs).name = some nm ∧ (pyExtractMethod n decs).is_private = true) ∧
    (∀ (body_children : List Node) (bc : Node), bc ∈ body_children →
      bc.type = "function_definition" →
      pyExtractMethod bc [] ∈ pyBlockMethods body_children) ∧
    (∀ (comments : Int → Option String) (n : Node) (hint : Option String) (nm : String),
      (n.children.foldl jsFnScanStep ⟨hint, none, none, false, false⟩).func_name = some nm →
      strStartsWith nm "_" = true →
      jsExtractFunctionInfo comments n hint = none) ∧
    (∀ (comments : Int → Option String) (n : Node) (nm : String),
      (n.children.foldl jsMethodScanStep ⟨none, none, none, false, false⟩).func_name = some nm →
      nm ≠ "" → strStartsWith nm "_" = true →
      ∃ m, jsExtractMethod comments n = some m ∧ m.name = nm ∧ m.is_private = true) := by
  refine ⟨?_, ?_, ?_, ?_, ?_⟩
  · rintro prevRev ⟨ty, tx, sr, er, fl, cs⟩ top nm h hscan hpriv
    simp only [Node.type] at h
    subst h
    simp only [Node.children] at hscan
    simp only [pyFindFunctions, hscan, eq_self_iff_true, if_true]
    rw [if_neg]
    rintro ⟨-, h2⟩
    exact h2 hpriv
  · rintro ⟨ty, tx, sr, er, fl, cs⟩ decs nm hscan hpriv
    simp only [Node.children] at hscan
    simp only [pyExtractMethod, hscan]
    exact ⟨trivial, hpriv⟩
  · intro body_children bc hmem hbc
    rw [pyBlockMethods, List.mem_flatMap]
    exact ⟨bc, hmem, by rw [if_pos hbc]; exact List.mem_singleton.mpr rfl⟩
  · rintro comments ⟨ty, tx, sr, er, fl, cs⟩ hint nm hscan hpriv
    simp only [Node.children] at hscan
    simp only [jsExtractFunctionInfo, hscan]
    by_cases he : nm = ""
    · rw [if_pos he]
    · rw [if_neg he, if_pos hpriv]
  · rintro comments ⟨ty, tx, sr, er, fl, cs⟩ nm hscan hne hpriv
    simp only [Node.children] at hscan
    rcases hjs : jsExtractMethod comments (.mk ty tx sr er fl cs) with _ | m
    · simp only [jsExtractMethod, hscan] at hjs
      rw [if_neg hne] at hjs
      exact absurd hjs (by simp)
    · simp only [jsExtractMethod, hscan] at hjs
      rw [if_neg hne] at hjs
      obtain rfl := (Option.some.inj hjs)
      refine ⟨_, rfl, rfl, ?_⟩
      show (strStartsWith nm "_" || strStartsWith nm "#") = true
      rw [hpriv]
      rfl

/-- C4 witness: `_h` as a top-level function yields no record; `_h` as a
method is kept with `is_private = true`; it is never dropped from the
method list; the JS function extractor drops it. -/
theorem C4_witness :
    pyFindFunctions [] wPrivFn true = [] ∧
    (pyExtractMethod wPrivFn []).name = some "_h" ∧
    (pyExtractMethod wPrivFn []).is_private = true ∧
    pyExtractMethod wPrivFn [] ∈ pyBlockMethods [wPrivFn] ∧
    jsExtractFunctionInfo emptyComments wPrivFn none = none := by
  have h := C4_private_marker
  exact ⟨h.1 [] wPrivFn true "_h" (by decide) (by decide) (by decide),
    (h.2.1 wPrivFn [] "_h" (by decide) (by decide)).1,
    (h.2.1 wPrivFn [] "_h" (by decide) (by decide)).2,
    h.2.2.1 [wPrivFn] wPrivFn (by simp) (by decide),
    h.2.2.2.1 emptyComments wPrivFn none "_h" (by decide) (by decide)⟩

/-! ## C5 — JSDoc attachment window -/

mutual

/-- Soundness of the comment index over a subtree: an entry at key `r` is
either inherited from the map passed in, or there is a comment node in the
subtree whose trimmed text starts with `/**`, whose END row is exactly `r`,
and whose trimmed text is the stored value. -/
theorem jsCC_sound : ∀ (n : Node) (m : Int → Option String) (r : Int) (t : String),
    jsCollectComments m n r = some t →
    m r = some t ∨ ∃ c, c ∈ nodeDescendants n ∧ c.type = "comment" ∧
      strStartsWith (strTrim c.text) "/**" = true ∧ c.endRow = r ∧ strTrim c.text = t
  | .mk ty tx sr er fl cs, m, r, t => by
    intro h
    simp only [jsCollectComments] at h
    rcases jsCCL_sound cs _ r t h with h1 | ⟨c, hc, hrest⟩
    · by_cases hcond : ty = "comment" ∧ strStartsWith (strTrim tx) "/**" = true
      · rw [if_pos hcond] at h1
        by_cases hre : r = er
        · rw [if_pos hre] at h1
          right
          refine ⟨.mk ty tx sr er fl cs, ?_, hcond.1, hcond.2, ?_, Option.some.inj h1⟩
          · simp [nodeDescendants]
          · simp only [Node.endRow]
            rw [hre]
        · rw [if_neg hre] at h1
          exact Or.inl h1
      · rw [if_neg hcond] at h1
        exact Or.inl h1
    · right
      exact ⟨c, by simp only [nodeDescendants]; exact List.mem_cons_of_mem _ hc, hrest⟩

/-- Soundness of the comment index over a forest. -/
theorem jsCCL_sound : ∀ (cs : List Node) (m : Int → Option String) (r : Int) (t : String),
    jsCollectCommentsList m cs r = some t →
    m r = some t ∨ ∃ c, c ∈ nodeListDescendants cs ∧ c.type = "comment" ∧
      strStartsWith (strTrim c.text) "/**" = true ∧ c.endRow = r ∧ strTrim c.text = t
  | [], m, r, t => by
    intro h
    exact Or.inl h
  | c :: cs, m, r, t => by
    intro h
    simp only [jsCollectCommentsList] at h
    rcases jsCCL_sound cs _ r t h with h1 | ⟨c2, hc2, hrest⟩
    · rcases jsCC_sound c _ r t h1 with h2 | ⟨c2, hc2, hrest⟩
      · exact Or.inl h2
      · right
        exact ⟨c2, by simp only [nodeListDescendants]; exact List.mem_append_left _ hc2, hrest⟩
    · right
      exact ⟨c2, by simp only [nodeListDescendants]; exact List.mem_append_right _ hc2, hrest⟩

end

/-- C5: a docstring is attached iff a JSDoc comment ENDS exactly one or two
lines above the declaration's start line.  Part 1 (only if): any attachment
comes from a comment node of the tree ending at `line - 1` or `line - 2`.
Part 2 (nearest first): an index entry one line above always wins.  Part 3
(fallback / boundary): with nothing one line above, the result is exactly the
index at two lines above — and nothing three or more lines above is ever
consulted. -/
theorem C5_jsdoc_window (tree : Node) (line : Int) :
    (∀ t, jsFindJsdoc (jsCollectComments emptyComments tree) line = some t →
      ∃ c, c ∈ nodeDescendants tree ∧ c.type = "comment" ∧
        strStartsWith (strTrim c.text) "/**" = true ∧ strTrim c.text = t ∧
        (c.endRow = line - 1 ∨ c.endRow = line - 2)) ∧
    (∀ t, jsCollectComments emptyComments tree (line - 1) = some t →
      jsFindJsdoc (jsCollectComments emptyComments tree) line = some t) ∧
    (jsCollectComments emptyComments tree (line - 1) = none →
      jsFindJsdoc (jsCollectComments emptyComments tree) line =
        jsCollectComments emptyComments tree (line - 2)) := by
  refine ⟨?_, ?_, ?_⟩
  · intro t h
    rw [jsFindJsdoc] at h
    split at h
    · rename_i t1 heq
      obtain rfl := Option.some.inj h
      rcases jsCC_sound tree _ (line - 1) t1 heq with h2 | ⟨c, hc, hty, hpfx, hrow, htxt⟩
      · exact absurd h2 (by simp [emptyComments])
      · exact ⟨c, hc, hty, hpfx, htxt, Or.inl hrow⟩
    · rcases jsCC_sound tree _ (line - 2) t h with h2 | ⟨c, hc, hty, hpfx, hrow, htxt⟩
      · exact absurd h2 (by simp [emptyComments])
      · exact ⟨c, hc, hty, hpfx, htxt, Or.inr hrow⟩
  · intro t h
    rw [jsFindJsdoc, h]
  · intro h
    rw [jsFindJsdoc, h]

/-- C5 witness: a JSDoc comment ending on row 0 is attached to a declaration
starting on row 2 (exactly two lines above, the boundary case) and NOT to one
starting on row 3 (three lines above). -/
theorem C5_witness :
    jsFindJsdoc (jsCollectComments emptyComments wJsdocProg) 2 = some "/** d */" ∧
    jsFindJsdoc (jsCollectComments emptyComments wJsdocProg) 3 = none := by
  constructor
  · have h3 := (C5_jsdoc_window wJsdocProg 2).2.2 (by decide)
    rw [h3]
    decide
  · have h3 := (C5_jsdoc_window wJsdocProg 3).2.2 (by decide)
    rw [h3]
    decide

/-! ## C6 — arrow-function signature rendering -/

/-- C6: every arrow-function declarator whose info extraction succeeds is
re-rendered as `const <name> = <async-prefix><param-list> =><return-suffix>`,
the colon-prefixed return suffix concatenated directly onto `=>` with no
space. -/
theorem C6_arrow_signature (comments : Int → Option String) (ty tx : String) (sr er : Int)
    (fl : Option String) (cs : List Node) (d nn v : Node) (info : JsFunctionRecord)
    (hty : ty = "lexical_declaration" ∨ ty = "variable_declaration")
    (hd : d ∈ cs) (hdty : d.type = "variable_declarator")
    (hnn : childByFieldName d "name" = some nn)
    (hv : childByFieldName d "value" = some v)
    (hvty : v.type = "arrow_function")
    (hinfo : jsExtractFunctionInfo comments v (some nn.text) = some info) :
    { info with signature := "const " ++ nn.text ++ " = " ++
        (if info.is_async then "async " else "") ++ info.parameters ++ " =>" ++
        jsArrowRetSuffix info.return_type } ∈
      jsFindFunctions comments (.mk ty tx sr er fl cs) true := by
  have hne1 : ty ≠ "function_declaration" := by
    rcases hty with h | h <;> (subst h; decide)
  simp only [jsFindFunctions, if_neg hne1, if_pos hty, List.mem_flatMap]
  refine ⟨d, hd, ?_⟩
  simp only [hdty, eq_self_iff_true, if_true, hnn, hv, hvty, hinfo, true_or, if_pos,
    List.mem_singleton]

/-- C6 witness: `const add = (a: number, b: number): number => a + b;` yields
exactly the signature `"const add = (a: number, b: number) =>: number"`. -/
theorem C6_witness :
    (⟨"add", "const add = (a: number, b: number) =>: number", "(a: number, b: number)",
        some "number", none, [], 1, 1, false, false⟩ : JsFunctionRecord) ∈
      jsFindFunctions (jsCollectComments emptyComments wProgArrow) wLexDecl true ∧
    (extract_js_functions wProgArrow).map (fun r => r.signature) =
      ["const add = (a: number, b: number) =>: number"] := by
  constructor
  · exact C6_arrow_signature (jsCollectComments emptyComments wProgArrow)
      "lexical_declaration" "const add = (a: number, b: number): number => a + b;" 0 0 none
      [Node.mk "const" "const" 0 0 none [], wDeclarator] wDeclarator
      (Node.mk "identifier" "add" 0 0 (some "name") []) wArrowNode
      ⟨"add", "function add(a: number, b: number): number", "(a: number, b: number)",
        some "number", none, [], 1, 1, false, false⟩
      (Or.inl rfl) (by simp) (by decide) rfl rfl (by decide) (by decide)
  · decide

/-! ## C7 — size ceiling -/

/-- C7: with a resolved dialect and a successful read, any source strictly
longer than 1,000,000 characters yields exactly the size-ceiling error with
all record lists empty — for EVERY parsing engine and extractor set, i.e.
before any parse attempt — while a source of exactly 1,000,000 characters is
never rejected by the size check. -/
theorem C7_size_ceiling (X : ExtractorSet) (parse : String → String → Except String Node)
    (fs : String → Except String String) (path lang src : String)
    (hdet : detect_language path = some lang) (hread : fs path = .ok src) :
    (src.length > 1000000 → parse_file X parse fs path =
      ⟨path, some lang, [], [], [], [], some "File too large (> 1MB)"⟩) ∧
    (src.length = 1000000 → (parse_file X parse fs path).error ≠ some "File too large (> 1MB)") := by
  have hget := get_language_of_detect path lang hdet
  constructor
  · intro hbig
    simp only [parse_file, hdet, hget, hread]
    rw [if_pos hbig]
  · intro hexact
    have hnot : ¬(src.length > 1000000) := by omega
    simp only [parse_file, hdet, hget, hread]
    rw [if_neg hnot]
    rcases hp : parse lang src with e | tree
    · simp only [hp]
      intro hcontra
      have h2 := Option.some.inj hcontra
      exact append_ne_of_head_ne "Parse error: " "File too large (> 1MB)" e
        (Char.ofNat 80) (Char.ofNat 70) rfl rfl (by decide) h2
    · simp only [hp]
      rcases runExtraction_error X lang src tree ⟨path, some lang, [], [], [], [], none⟩
        with h | ⟨e0, h⟩
      · rw [h]
        simp
      · rw [h]
        intro hcontra
        have h2 := Option.some.inj hcontra
        exact append_ne_of_head_ne "Extraction error: " "File too large (> 1MB)" e0
          (Char.ofNat 69) (Char.ofNat 70) rfl rfl (by decide) h2

/-- The 1,000,001-character fixture really has 1,000,001 characters. -/
theorem bigStr_len : bigStr.length = 1000001 := by
  rw [bigStr]
  show (List.replicate 1000001 (Char.ofNat 97)).length = 1000001
  exact List.length_replicate _ _

/-- The 1,000,000-character fixture really has 1,000,000 characters. -/
theorem bigStrOk_len : bigStrOk.length = 1000000 := by
  rw [bigStrOk]
  show (List.replicate 1000000 (Char.ofNat 97)).length = 1000000
  exact List.length_replicate _ _

/-- C7 witness: a 1,000,001-character `.py` source is rejected with the size
error and empty lists; a 1,000,000-character one is not size-rejected. -/
theorem C7_witness :
    parse_file X0 parse0 (fun _ => .ok bigStr) "big.py" =
      ⟨"big.py", some "python", [], [], [], [], some "File too large (> 1MB)"⟩ ∧
    (parse_file X0 parse0 (fun _ => .ok bigStrOk) "big.py").error ≠
      some "File too large (> 1MB)" := by
  constructor
  · exact (C7_size_ceiling X0 parse0 (fun _ => .ok bigStr) "big.py" "python" bigStr
      (by decide) rfl).1 (by rw [bigStr_len]; norm_num)
  · exact (C7_size_ceiling X0 parse0 (fun _ => .ok bigStrOk) "big.py" "python" bigStrOk
      (by decide) rfl).2 bigStrOk_len

/-! ## C8 — from-import name accumulation -/

/-- After the `import` keyword has been seen, every further child contributes
exactly its specification-side names, in order, and the flag stays set. -/
theorem fromImportStep_found (st : FromImportState) (c : Node)
    (hf : st.found_import_keyword = true) :
    (fromImportStep st c).names = st.names ++ specFromImportName c ∧
    (fromImportStep st c).found_import_keyword = true := by
  obtain ⟨mo, ns, f⟩ := st
  simp only at hf
  subst hf
  by_cases h1 : c.type = "import"
  · simp [fromImportStep, specFromImportName, h1]
  · by_cases h2 : c.type = "dotted_name"
    · simp [fromImportStep, specFromImportName, h1, h2]
    · by_cases h3 : c.type = "relative_import"
      · simp [fromImportStep, specFromImportName, h1, h2, h3]
      · by_cases h4 : c.type = "identifier"
        · simp [fromImportStep, specFromImportName, h1, h2, h3, h4]
        · by_cases h5 : c.type = "aliased_import"
          · rcases hfind : c.children.find?
                (fun ac => decide (ac.type = "dotted_name") || decide (ac.type = "identifier"))
              with _ | ac
            · simp [fromImportStep, specFromImportName, h1, h2, h3, h4, h5, hfind]
            · simp [fromImportStep, specFromImportName, h1, h2, h3, h4, h5, hfind]
          · by_cases h6 : c.type = "wildcard_import"
            · simp [fromImportStep, specFromImportName, h1, h2, h3, h4, h5, h6]
            · simp [fromImportStep, specFromImportName, h1, h2, h3, h4, h5, h6]

/-- Before the `import` keyword, a non-`import`, non-aliased, non-wildcard
child never touches `names` and leaves the flag unset. -/
theorem fromImportStep_pre (st : FromImportState) (c : Node)
    (hf : st.found_import_keyword = false) (hc1 : c.type ≠ "import")
    (hc5 : c.type ≠ "aliased_import") (hc6 : c.type ≠ "wildcard_import") :
    (fromImportStep st c).names = st.names ∧
    (fromImportStep st c).found_import_keyword = false := by
  obtain ⟨mo, ns, f⟩ := st
  simp only at hf
  subst hf
  by_cases h2 : c.type = "dotted_name"
  · simp [fromImportStep, hc1, h2, hc5, hc6]
  · by_cases h3 : c.type = "relative_import"
    · simp [fromImportStep, hc1, h2, h3, hc5, hc6]
    · by_cases h4 : c.type = "identifier"
      · simp [fromImportStep, hc1, h2, h3, h4, hc5, hc6]
      · simp [fromImportStep, hc1, h2, h3, h4, hc5, hc6]

/-- Folding the post-`import` phase accumulates the specification-side names
of every child, in source order. -/
theorem fromImportFold_found : ∀ (cs : List Node) (st : FromImportState),
    st.found_import_keyword = true →
    (cs.foldl fromImportStep st).names = st.names ++ cs.flatMap specFromImportName := by
  intro cs
  induction cs with
  | nil => intro st h; simp
  | cons c cs ih =>
    intro st h
    obtain ⟨hn, hf⟩ := fromImportStep_found st c h
    simp only [List.foldl_cons, List.flatMap_cons]
    rw [ih _ hf, hn, List.append_assoc]

/-- The spec-side name list of a statement headed by the `import` keyword. -/
theorem specFromImportNames_cons_import (c : Node) (cs : List Node) (h : c.type = "import") :
    specFromImportNames (c :: cs) = cs.flatMap specFromImportName := by
  simp [specFromImportNames, List.dropWhile_cons, h]

/-- The spec-side name list ignores children before the `import` keyword. -/
theorem specFromImportNames_cons_other (c : Node) (cs : List Node) (h : c.type ≠ "import") :
    specFromImportNames (c :: cs) = specFromImportNames cs := by
  simp [specFromImportNames, List.dropWhile_cons, h]

/-- The whole child fold produces exactly the specification-side name list
whenever no aliased/wildcard child precedes the `import` keyword. -/
theorem fromImportFold_pre : ∀ (cs : List Node) (st : FromImportState),
    st.found_import_keyword = false →
    (∀ c ∈ cs.takeWhile (fun c => decide (c.type ≠ "import")),
      c.type ≠ "aliased_import" ∧ c.type ≠ "wildcard_import") →
    (cs.foldl fromImportStep st).names = st.names ++ specFromImportNames cs := by
  intro cs
  induction cs with
  | nil => intro st h hpre; simp [specFromImportNames]
  | cons c cs ih =>
    intro st h hpre
    by_cases h1 : c.type = "import"
    · have hstep : fromImportStep st c = ⟨st.module_name, st.names, true⟩ := by
        obtain ⟨mo, ns, f⟩ := st
        simp [fromImportStep, h1]
      simp only [List.foldl_cons, hstep]
      rw [fromImportFold_found cs ⟨st.module_name, st.names, true⟩ rfl,
        specFromImportNames_cons_import c cs h1]
    · have hmem : ∀ x ∈ (c :: cs).takeWhile (fun c => decide (c.type ≠ "import")),
          x.type ≠ "aliased_import" ∧ x.type ≠ "wildcard_import" := hpre
      have hcmem : c ∈ (c :: cs).takeWhile (fun c => decide (c.type ≠ "import")) := by
        rw [List.takeWhile_cons, if_pos (by simpa using h1)]
        exact List.mem_cons_self c _
      obtain ⟨hc5, hc6⟩ := hmem c hcmem
      obtain ⟨hn, hf⟩ := fromImportStep_pre st c h h1 hc5 hc6
      have htail : ∀ x ∈ cs.takeWhile (fun c => decide (c.type ≠ "import")),
          x.type ≠ "aliased_import" ∧ x.type ≠ "wildcard_import" := by
        intro x hx
        refine hmem x ?_
        rw [List.takeWhile_cons, if_pos (by simpa using h1)]
        exact List.mem_cons_of_mem _ hx
      simp only [List.foldl_cons]
      rw [ih _ hf htail, hn, specFromImportNames_cons_other c cs h1]

/-- C8: a from-import statement (whose aliased/wildcard children all follow
the `import` keyword, as the grammar guarantees) yields exactly one record
with `is_from = true`, the resolved module, and `names` equal to the
specification-side accumulation — every name after the `import` keyword in
source order, the pre-alias name for an aliased import, `"*"` for a wildcard
— or `none` rather than the empty list when nothing was collected. -/
theorem C8_from_import (tx : String) (sr er : Int) (fl : Option String) (cs : List Node)
    (m : String)
    (hpre : ∀ c ∈ cs.takeWhile (fun c => decide (c.type ≠ "import")),
      c.type ≠ "aliased_import" ∧ c.type ≠ "wildcard_import")
    (hmod : (cs.foldl fromImportStep ⟨none, [], false⟩).module_name = some m) :
    pyWalkImports (.mk "import_from_statement" tx sr er fl cs) =
      [⟨m, (if specFromImportNames cs = [] then none else some (specFromImportNames cs)),
        none, true, sr + 1⟩] := by
  have hnames : (cs.foldl fromImportStep ⟨none, [], false⟩).names = specFromImportNames cs := by
    simpa using fromImportFold_pre cs ⟨none, [], false⟩ rfl hpre
  simp only [pyWalkImports]
  rw [if_neg (show ¬("import_from_statement" = "import_statement") from (by decide)),
    if_true, hmod, hnames]

/-- C8 witness: `from os import path, sep as s, *` yields one record with
`is_from = true` and `names = ["path", "sep", "*"]` — the pre-alias `sep`,
never the alias `s`. -/
theorem C8_witness :
    pyWalkImports wFromImport = [⟨"os", some ["path", "sep", "*"], none, true, 1⟩] := by
  have h := C8_from_import "from os import path, sep as s, *" 0 0 none
    wFromImport.children "os" (by decide) (by decide)
  exact h.trans (by decide)

/-! ## C9 — batch contract -/

/-- C9: the batch arm of `main` returns one FileResult per input path, in
input order; entry `i` is exactly `parse_file` of path `i` — independent of
every other path, so a failure on one path cannot remove, reorder or alter
the others — and a path with a resolved dialect whose read fails is marked
with the read-failure error. -/
theorem C9_batch_contract (X : ExtractorSet) (parse : String → String → Except String Node)
    (fs : String → Except String String) (paths : List String) :
    (mainBatch X parse fs paths).length = paths.length ∧
    (∀ (i : Nat) (h1 : i < paths.length) (h2 : i < (mainBatch X parse fs paths).length),
      (mainBatch X parse fs paths).get ⟨i, h2⟩ = parse_file X parse fs (paths.get ⟨i, h1⟩)) ∧
    (∀ (i : Nat) (h1 : i < paths.length) (h2 : i < (mainBatch X parse fs paths).length)
      (lang e : String),
      detect_language (paths.get ⟨i, h1⟩) = some lang →
      fs (paths.get ⟨i, h1⟩) = .error e →
      ((mainBatch X parse fs paths).get ⟨i, h2⟩).error =
        some ("Failed to read file: " ++ e)) := by
  refine ⟨by simp [mainBatch], ?_, ?_⟩
  · intro i h1 h2
    simp [mainBatch]
  · intro i h1 h2 lang e hdet hfs
    have hg : (mainBatch X parse fs paths).get ⟨i, h2⟩ =
        parse_file X parse fs (paths.get ⟨i, h1⟩) := by simp [mainBatch]
    rw [hg]
    have hget := get_language_of_detect _ lang hdet
    simp only [parse_file, hdet, hget, hfs]

/-- C9 witness: a two-path batch where the second path does not exist has
length 2 and its second entry carries the read-failure error. -/
theorem C9_witness :
    (mainBatch X0 parse0 fsOne ["a.py", "missing.py"]).length = 2 ∧
    ((mainBatch X0 parse0 fsOne ["a.py", "missing.py"]).get ⟨1, by decide⟩).error =
      some ("Failed to read file: " ++ "No such file") := by
  have h := C9_batch_contract X0 parse0 fsOne ["a.py", "missing.py"]
  exact ⟨by simpa using h.1,
    h.2.2 1 (by decide) (by decide) "python" "No such file" (by decide) rfl⟩

/-! ## C10 — the language tag of error results -/

/-- C10: whenever the extension resolves to a dialect, the result's
`language` field carries that dialect — on success and on every later error
alike — and `language` is `none` exactly on the unsupported-extension error,
which is then the error reported. -/
theorem C10_language_tag (X : ExtractorSet) (parse : String → String → Except String Node)
    (fs : String → Except String String) (path : String) :
    (∀ lang, detect_language path = some lang →
      (parse_file X parse fs path).language = some lang) ∧
    (detect_language path = none →
      (parse_file X parse fs path).language = none ∧
      (parse_file X parse fs path).error = some ("Unsupported file type: " ++ path)) := by
  constructor
  · intro lang hdet
    simp only [parse_file, hdet]
    repeat' split
    all_goals simp [runExtraction_language]
  · intro hdet
    simp [parse_file, hdet]

/-- C10 witness: an unreadable `.py` path still reports `language =
"python"`, while the unsupported `.txt` path reports no language and the
unsupported-extension error. -/
theorem C10_witness :
    (parse_file X0 parse0 (fun _ => .error "no such file") "a.py").language = some "python" ∧
    (parse_file X0 parse0 (fun _ => .error "no such file") "a.txt").language = none ∧
    (parse_file X0 parse0 (fun _ => .error "no such file") "a.txt").error =
      some ("Unsupported file type: " ++ "a.txt") := by
  exact ⟨(C10_language_tag X0 parse0 (fun _ => .error "no such file") "a.py").1 "python"
      (by decide),
    ((C10_language_tag X0 parse0 (fun _ => .error "no such file") "a.txt").2 (by decide)).1,
    ((C10_language_tag X0 parse0 (fun _ => .error "no such file") "a.txt").2 (by decide)).2⟩
